import Mathlib

/-!
# wf-glow: the glow decoration plugin

A shallow embedding of `src/wf-rainbow-glow/glow-decoration.cpp`,
`glow-decoration.hpp` and `shaders.hpp`.

Conventions of the embedding.

* C++ `float` values are exact rationals (`ℚ`): infinities and NaN are not
  modelled, and rounding is modelled only in the functions named `*_rounded`,
  which pass every binary32 result through a rounding function `fl`
  (`round_binary32` is the concrete one).  The one place where the C++ source
  can leave the finite numbers, a division by the render target's size, is
  made explicit: the quotient is `none` when the divisor is zero.  In the
  fragment shader the
  quotient `p / halfSize` of the gradient is the total division of `ℚ`; no
  theorem depends on its value for a box without area.
* GLSL built-ins with irrational values (`length`, `exp`, `sin`, `cos`,
  `atan`, `radians`) are parameters, collected in `glsl_t`.
* C++ `int` values are unbounded integers (`ℤ`); `static_cast<int>` of a
  float is truncation toward zero.
* A `wayfire_view` is a nullable handle: `none` is `nullptr`, `some v` is the
  view with identity `v`.
* What the compositor answers about a view (mapped, bounding box, toplevel,
  should be decorated) is read from a `host_t` record.
* `std::map` is an association list kept sorted by key, without duplicate
  keys.
-/

namespace wf.glow_decoration

/-! ## Data model -/

/-- A nullable view handle: `none` is `nullptr`. -/
abbrev wayfire_view := Option Nat

/-- The integer rectangle `wf::geometry_t` (x, y, width, height). -/
structure geometry_t where
  x : ℤ
  y : ℤ
  width : ℤ
  height : ℤ
  deriving DecidableEq, Repr

/-- The four float components of a `glm::vec4` colour. -/
structure vec4 where
  r : ℚ
  g : ℚ
  b : ℚ
  a : ℚ
  deriving DecidableEq, Repr

/-- The process-wide style `glow_config_t` with the defaults of the header. -/
structure glow_config_t where
  active_color : vec4 := ⟨1, 1/2, 0, 1⟩
  inactive_color : vec4 := ⟨3/10, 3/10, 3/10, 1⟩
  gradient_color_2 : vec4 := ⟨0, 1/2, 1, 1⟩
  glow_radius : ℚ := 20
  glow_intensity : ℚ := 1
  border_width : ℚ := 2
  animation_speed : ℚ := 1
  enable_gradient : Bool := false
  gradient_angle : ℚ := 45
  corner_radius : ℚ := 10
  deriving DecidableEq, Repr

/-- What the compositor knows about each view. -/
structure host_t where
  is_mapped : Nat → Bool
  get_bounding_box : Nat → geometry_t
  toplevel_cast : Nat → Bool
  should_be_decorated : Nat → Bool

/-- The scene node `glow_decoration_node_t`.  `addr` is the identity of the
shared object.  The source reads and writes `opacity` and `creation_time`, but
the header under `src/` does not declare them.
Modelled from the spec: the two missing member declarations, with `opacity`
"0 at creation" and `creation_time` a float timestamp. -/
structure glow_decoration_node_t where
  addr : Nat
  view : wayfire_view
  is_active : Bool := false
  animation_time : ℚ := 0
  opacity : ℚ := 0
  creation_time : ℚ := 0
  deriving DecidableEq, Repr

/-- The plugin instance `glow_decoration_t` together with the parts of the
world its methods touch: `decorations` and `focused_view` are its members;
`scene` lists the glow nodes attached to view root nodes as
(view identity, node identity), front first; `next_addr` is the next fresh
object identity; `damage` logs the regions of the `node_damage_signal`s
emitted so far, newest first. -/
structure glow_decoration_t where
  decorations : List (wayfire_view × glow_decoration_node_t) := []
  focused_view : wayfire_view := none
  scene : List (Nat × Nat) := []
  next_addr : Nat := 0
  damage : List geometry_t := []
  deriving DecidableEq, Repr

/-- The conversion `static_cast<int>(float)`: truncation toward zero. -/
def static_cast_int (q : ℚ) : ℤ :=
  if 0 ≤ q then ⌊q⌋ else ⌈q⌉

/-! ## `std::map` operations -/

/-- The lookup `decorations.find(view)`. -/
def map_find (m : List (wayfire_view × glow_decoration_node_t)) (k : wayfire_view) :
    Option glow_decoration_node_t :=
  match m with
  | [] => none
  | (k', n) :: rest => if k' = k then some n else map_find rest k

/-- The membership count `decorations.count(view)`, as a Boolean. -/
def map_count (m : List (wayfire_view × glow_decoration_node_t)) (k : wayfire_view) : Bool :=
  (map_find m k).isSome

/-- The removal `decorations.erase(it)` of the entry with key `k`. -/
def map_erase (m : List (wayfire_view × glow_decoration_node_t)) (k : wayfire_view) :
    List (wayfire_view × glow_decoration_node_t) :=
  match m with
  | [] => []
  | (k', n) :: rest => if k' = k then rest else (k', n) :: map_erase rest k

/-- The order of `std::map` keys: `nullptr` first, then by identity. -/
def key_lt : wayfire_view → wayfire_view → Bool
  | none, none => false
  | none, some _ => true
  | some _, none => false
  | some a, some b => decide (a < b)

/-- The assignment `decorations[view] = node`: overwrite the entry with an
equal key, otherwise insert in key order. -/
def map_assign (m : List (wayfire_view × glow_decoration_node_t)) (k : wayfire_view)
    (v : glow_decoration_node_t) : List (wayfire_view × glow_decoration_node_t) :=
  match m with
  | [] => [(k, v)]
  | (k', n) :: rest =>
    if k' = k then (k, v) :: rest
    else if key_lt k k' then (k, v) :: (k', n) :: rest
    else (k', n) :: map_assign rest k v

/-! ## The node -/

/-- The method `glow_decoration_node_t::get_bounding_box`: the view's box
expanded by the truncated `glow_radius + border_width`, or the zero box when
the view is gone or unmapped. -/
def glow_decoration_node_t.get_bounding_box (h : host_t) (cfg : glow_config_t)
    (n : glow_decoration_node_t) : geometry_t :=
  match n.view with
  | none => ⟨0, 0, 0, 0⟩
  | some v =>
    if !h.is_mapped v then ⟨0, 0, 0, 0⟩
    else
      let bbox := h.get_bounding_box v
      let expand := static_cast_int (cfg.glow_radius + cfg.border_width)
      ⟨bbox.x - expand, bbox.y - expand, bbox.width + 2 * expand, bbox.height + 2 * expand⟩

/-- The method `glow_decoration_node_t::set_active`: returns the node and the
damage regions it emitted. -/
def glow_decoration_node_t.set_active (h : host_t) (cfg : glow_config_t)
    (n : glow_decoration_node_t) (active : Bool) : glow_decoration_node_t × List geometry_t :=
  if n.is_active != active then
    let n' := { n with is_active := active }
    (n', [n'.get_bounding_box h cfg])
  else (n, [])

/-- The method `glow_decoration_node_t::set_animation_time`. -/
def glow_decoration_node_t.set_animation_time (h : host_t) (cfg : glow_config_t)
    (n : glow_decoration_node_t) (time : ℚ) : glow_decoration_node_t × List geometry_t :=
  let n' := { n with animation_time := time }
  (n', [n'.get_bounding_box h cfg])

/-! ## Animation -/

/-- The constant `DELAY` of `update_animation`. -/
def DELAY : ℚ := 1

/-- The constant `FADE_DURATION` of `update_animation`. -/
def FADE_DURATION : ℚ := 1 / 2

/-- The body of the loop of `update_animation` for one map entry. -/
def update_animation_node (h : host_t) (cfg : glow_config_t) (elapsed : ℚ)
    (view : wayfire_view) (node : glow_decoration_node_t) :
    glow_decoration_node_t × List geometry_t :=
  match view with
  | none => (node, [])
  | some v =>
    if h.is_mapped v then
      let r := node.set_animation_time h cfg (elapsed * cfg.animation_speed)
      let age := elapsed - r.1.creation_time
      if age < DELAY then
        ({ r.1 with opacity := 0 }, r.2)
      else
        let fade_progress := (age - DELAY) / FADE_DURATION
        ({ r.1 with opacity := min 1 fade_progress }, r.2)
    else (node, [])

/-- The loop of `update_animation` over the map entries, in key order,
collecting the emitted damage (newest first). -/
def update_animation_loop (h : host_t) (cfg : glow_config_t) (elapsed : ℚ) :
    List (wayfire_view × glow_decoration_node_t) →
    List (wayfire_view × glow_decoration_node_t) × List geometry_t
  | [] => ([], [])
  | (view, node) :: rest =>
    let r := update_animation_node h cfg elapsed view node
    let rs := update_animation_loop h cfg elapsed rest
    ((view, r.1) :: rs.1, rs.2 ++ r.2)

/-- The method `glow_decoration_t::update_animation` at clock reading
`elapsed` (seconds since `g_start_time`). -/
def update_animation (h : host_t) (cfg : glow_config_t) (elapsed : ℚ)
    (s : glow_decoration_t) : glow_decoration_t :=
  let r := update_animation_loop h cfg elapsed s.decorations
  { s with decorations := r.1, damage := r.2 ++ s.damage }

/-- The opacity `update_animation` stores in a mapped decoration created at
`creation_time`, read back from the updated node. -/
def opacity_at (h : host_t) (cfg : glow_config_t) (view : wayfire_view)
    (node : glow_decoration_node_t) (elapsed : ℚ) : ℚ :=
  (update_animation_node h cfg elapsed view node).1.opacity

/-! ## Registry -/

/-- The method `glow_decoration_t::add_decoration` at clock reading `now`. -/
def add_decoration (h : host_t) (cfg : glow_config_t) (now : ℚ) (view : wayfire_view)
    (s : glow_decoration_t) : glow_decoration_t :=
  match view with
  | none => s
  | some v =>
    if map_count s.decorations view then s
    else if h.toplevel_cast v && !h.should_be_decorated v then s
    else
      let node : glow_decoration_node_t := { addr := s.next_addr, view := view }
      let r := node.set_active h cfg (view == s.focused_view)
      let node := { r.1 with creation_time := now }
      { decorations := map_assign s.decorations view node
        focused_view := s.focused_view
        scene := (v, node.addr) :: s.scene
        next_addr := s.next_addr + 1
        damage := r.2 ++ s.damage }

/-- The method `glow_decoration_t::remove_decoration`. -/
def remove_decoration (view : wayfire_view) (s : glow_decoration_t) : glow_decoration_t :=
  let s1 : glow_decoration_t :=
    match map_find s.decorations view with
    | some node =>
      { s with
        scene := s.scene.filter (fun e => e.2 != node.addr)
        decorations := map_erase s.decorations view }
    | none => s
  if s1.focused_view = view then { s1 with focused_view := none } else s1

/-- The loop of `update_focus` over the map entries. -/
def update_focus_loop (h : host_t) (cfg : glow_config_t) (focused_view : wayfire_view) :
    List (wayfire_view × glow_decoration_node_t) →
    List (wayfire_view × glow_decoration_node_t) × List geometry_t
  | [] => ([], [])
  | (view, node) :: rest =>
    let r := node.set_active h cfg (view == focused_view)
    let rs := update_focus_loop h cfg focused_view rest
    ((view, r.1) :: rs.1, rs.2 ++ r.2)

/-- The method `glow_decoration_t::update_focus`. -/
def update_focus (h : host_t) (cfg : glow_config_t) (s : glow_decoration_t) :
    glow_decoration_t :=
  let r := update_focus_loop h cfg s.focused_view s.decorations
  { s with decorations := r.1, damage := r.2 ++ s.damage }

/-- The handler `on_focus_request` installed by `init`. -/
def on_focus_request (h : host_t) (cfg : glow_config_t) (view : wayfire_view)
    (s : glow_decoration_t) : glow_decoration_t :=
  update_focus h cfg { s with focused_view := view }

/-- The handler `on_view_mapped` installed by `init`. -/
def on_view_mapped (h : host_t) (cfg : glow_config_t) (now : ℚ) (view : wayfire_view)
    (s : glow_decoration_t) : glow_decoration_t :=
  match view with
  | none => s
  | some v => if h.toplevel_cast v then add_decoration h cfg now view s else s

/-- The handler `on_view_unmapped` installed by `init`. -/
def on_view_unmapped (view : wayfire_view) (s : glow_decoration_t) : glow_decoration_t :=
  remove_decoration view s

/-- One event of the plugin's event loop: a call of `add_decoration` or
`remove_decoration`, a focus request, or a tick of the animation timer. -/
inductive registry_call where
  | add (now : ℚ) (view : wayfire_view)
  | remove (view : wayfire_view)
  | focus (view : wayfire_view)
  | tick (elapsed : ℚ)
  deriving DecidableEq, Repr

/-- Run one event. -/
def registry_call.run (h : host_t) (cfg : glow_config_t) (s : glow_decoration_t) :
    registry_call → glow_decoration_t
  | .add now view => add_decoration h cfg now view s
  | .remove view => remove_decoration view s
  | .focus view => on_focus_request h cfg view s
  | .tick elapsed => update_animation h cfg elapsed s

/-- Run a sequence of events, first event first. -/
def run_calls (h : host_t) (cfg : glow_config_t) (s : glow_decoration_t)
    (calls : List registry_call) : glow_decoration_t :=
  calls.foldl (registry_call.run h cfg) s

/-- The (key, node identity) pairs of a decoration map. -/
def map_ids (m : List (wayfire_view × glow_decoration_node_t)) : List (wayfire_view × Nat) :=
  m.map (fun e => (e.1, e.2.addr))

/-- The well-formedness of a plugin state: `std::map` keys are unique, node
identities are unique and older than `next_addr`, and the glow nodes attached
to the scene are exactly the nodes of the map, each under its own view. -/
def registry_inv (s : glow_decoration_t) : Prop :=
  (s.decorations.map Prod.fst).Nodup ∧
  ((map_ids s.decorations).map Prod.snd).Nodup ∧
  (s.scene.map Prod.fst).Nodup ∧
  (∀ v a, (v, a) ∈ s.scene ↔ (some v, a) ∈ map_ids s.decorations) ∧
  (∀ e ∈ map_ids s.decorations, e.2 < s.next_addr)

/-- The values of the ten `option_wrapper_t` members. -/
structure options_t where
  opt_active_color : vec4
  opt_inactive_color : vec4
  opt_glow_radius : ℚ
  opt_glow_intensity : ℚ
  opt_border_width : ℚ
  opt_animation_speed : ℚ
  opt_enable_gradient : Bool
  opt_gradient_angle : ℚ
  opt_gradient_color_2 : vec4
  opt_corner_radius : ℚ
  deriving DecidableEq, Repr

/-- The ten assignments to the members of `g_config` at the head of
`update_config`; `g_config` is the value of the global before the call. -/
def assign_config (g_config : glow_config_t) (o : options_t) : glow_config_t :=
  { g_config with
    active_color := o.opt_active_color
    inactive_color := o.opt_inactive_color
    glow_radius := o.opt_glow_radius
    glow_intensity := o.opt_glow_intensity
    border_width := o.opt_border_width
    animation_speed := o.opt_animation_speed
    enable_gradient := o.opt_enable_gradient
    gradient_angle := o.opt_gradient_angle
    gradient_color_2 := o.opt_gradient_color_2
    corner_radius := o.opt_corner_radius }

/-- The method `glow_decoration_t::update_config`: the new `g_config` and the
plugin state after every node has emitted its bounding box as damage. -/
def update_config (h : host_t) (o : options_t) (g_config : glow_config_t)
    (s : glow_decoration_t) : glow_config_t × glow_decoration_t :=
  let cfg := assign_config g_config o
  (cfg, { s with
    damage := (s.decorations.map (fun e => e.2.get_bounding_box h cfg)).reverse ++ s.damage })

/-! ## Regions

The compositor's `wf::region_t` is a pixman region: a finite union of
half-open integer rectangles. -/

/-- A pixman box: the pixels with `x1 ≤ x < x2` and `y1 ≤ y < y2`. -/
structure pixman_box where
  x1 : ℤ
  y1 : ℤ
  x2 : ℤ
  y2 : ℤ
  deriving DecidableEq, Repr

/-- A region: the union of its boxes. -/
abbrev region_t := List pixman_box

/-- Pixel membership in a box. -/
def pixman_box.contains (b : pixman_box) (px py : ℤ) : Prop :=
  b.x1 ≤ px ∧ px < b.x2 ∧ b.y1 ≤ py ∧ py < b.y2

instance (b : pixman_box) (px py : ℤ) : Decidable (b.contains px py) := by
  unfold pixman_box.contains; infer_instance

/-- Pixel membership in a region. -/
def region_contains (r : region_t) (px py : ℤ) : Prop :=
  ∃ b ∈ r, b.contains px py

/-- The constructor `wf::region_t{box}`: one rectangle, or the empty region
for a box without area. -/
def region_of_box (g : geometry_t) : region_t :=
  if 0 < g.width ∧ 0 < g.height then [⟨g.x, g.y, g.x + g.width, g.y + g.height⟩] else []

/-- The intersection of two boxes, when it has area. -/
def box_inter (a b : pixman_box) : Option pixman_box :=
  let x1 := max a.x1 b.x1
  let y1 := max a.y1 b.y1
  let x2 := min a.x2 b.x2
  let y2 := min a.y2 b.y2
  if x1 < x2 ∧ y1 < y2 then some ⟨x1, y1, x2, y2⟩ else none

/-- The operator `&=` on regions. -/
def region_inter (r1 r2 : region_t) : region_t :=
  r1.flatMap (fun a => r2.filterMap (box_inter a))

/-- The test `region.empty()`. -/
def region_empty (r : region_t) : Bool := r.isEmpty

/-! ## Render instance -/

/-- A render target, reduced to its `geometry`. -/
structure render_target_t where
  geometry : geometry_t
  deriving DecidableEq, Repr

/-- A `wf::scene::render_instruction_t`; `inst` is the identity of the node
whose render instance issued it (the field `instance` of the source). -/
structure render_instruction_t where
  inst : Nat
  target : render_target_t
  damage : region_t
  deriving DecidableEq, Repr

/-- The method `glow_render_instance_t::schedule_instructions`. -/
def schedule_instructions (h : host_t) (cfg : glow_config_t) (self : glow_decoration_node_t)
    (instructions : List render_instruction_t) (target : render_target_t)
    (damage : region_t) : List render_instruction_t :=
  let bbox := self.get_bounding_box h cfg
  let our_region := region_inter (region_of_box bbox) damage
  if !region_empty our_region then
    instructions ++ [{ inst := self.addr, target := target, damage := our_region }]
  else instructions

/-- A redraw pass of the compositor over the render instances of `nodes`:
each one schedules into the same instruction list for the same target and
dirty region. -/
def schedule_pass (h : host_t) (cfg : glow_config_t) (nodes : List glow_decoration_node_t)
    (target : render_target_t) (damage : region_t) : List render_instruction_t :=
  nodes.foldl (fun acc n => schedule_instructions h cfg n acc target damage) []

/-! ## The GL program -/

/-- What the GL implementation answers to one run of the body of
`compile_shaders`: the compile status of each stage and the link status. -/
structure gl_driver_t where
  vertex_ok : Bool
  fragment_ok : Bool
  link_ok : Bool
  deriving DecidableEq, Repr

/-- The GL implementation accepts both stages and the link. -/
def gl_driver_t.ok (d : gl_driver_t) : Bool :=
  d.vertex_ok && d.fragment_ok && d.link_ok

/-- The uniform values and the quad of one draw.  A vertex coordinate is
`none` when its computation divided by zero. -/
structure draw_t where
  u_resolution : ℚ × ℚ
  u_border_box : ℚ × ℚ × ℚ × ℚ
  u_glow_color : vec4
  u_glow_color_2 : vec4
  u_glow_radius : ℚ
  u_glow_intensity : ℚ
  u_border_width : ℚ
  u_time : ℚ
  u_enable_gradient : ℤ
  u_gradient_angle : ℚ
  u_corner_radius : ℚ
  vertices : List (Option ℚ × Option ℚ)
  deriving DecidableEq, Repr

/-- The GL calls the embedding records. -/
inductive gl_event where
  | compile_shader (fragment : Bool) (success : Bool)
  | link_program (success : Bool)
  | draw_arrays (d : draw_t)
  deriving DecidableEq, Repr

/-- The GL context: the next free object name, the number of runs of the body
of `compile_shaders` so far, and the recorded calls, oldest first. -/
structure gl_t where
  next_name : Nat := 1
  attempts : Nat := 0
  log : List gl_event := []
  deriving DecidableEq, Repr

/-- The members of `glow_program_t` that the program logic reads; the cached
uniform locations are left out. -/
structure glow_program_t where
  program : Nat := 0
  vertex_shader : Nat := 0
  fragment_shader : Nat := 0
  compiled : Bool := false
  deriving DecidableEq, Repr

/-- The global `g_glow_program` and the GL context it lives in. -/
structure gpu_t where
  g_glow_program : glow_program_t := {}
  gl : gl_t := {}
  deriving DecidableEq, Repr

/-- The method `glow_program_t::compile_shaders`.  `driver n` is what the GL
implementation answers to the run numbered `n` of the body. -/
def compile_shaders (driver : Nat → gl_driver_t) (g : gpu_t) : Bool × gpu_t :=
  if g.g_glow_program.compiled then (true, g)
  else
    let d := driver g.gl.attempts
    let p : glow_program_t :=
      { g.g_glow_program with
        vertex_shader := g.gl.next_name
        fragment_shader := g.gl.next_name + 1
        program := g.gl.next_name + 2 }
    let gl : gl_t :=
      { g.gl with next_name := g.gl.next_name + 3, attempts := g.gl.attempts + 1 }
    if !d.vertex_ok then
      (false, ⟨p, { gl with log := gl.log ++ [.compile_shader false false] }⟩)
    else if !d.fragment_ok then
      (false, ⟨p, { gl with log := gl.log ++
        [.compile_shader false true, .compile_shader true false] }⟩)
    else if !d.link_ok then
      (false, ⟨p, { gl with log := gl.log ++
        [.compile_shader false true, .compile_shader true true, .link_program false] }⟩)
    else
      (true, ⟨{ p with compiled := true }, { gl with log := gl.log ++
        [.compile_shader false true, .compile_shader true true, .link_program true] }⟩)

/-- The method `glow_program_t::destroy`. -/
def destroy (g : gpu_t) : gpu_t :=
  { g with g_glow_program := { program := 0, vertex_shader := 0, fragment_shader := 0,
                               compiled := false } }

/-! ## Draw geometry -/

/-- A float division: `none` when the divisor is zero. -/
def float_div (a b : ℚ) : Option ℚ :=
  if b = 0 then none else some (a / b)

/-- The quad rectangle `geom` of `render`: the view box expanded by the glow
radius, each component truncated. -/
def render_geom (view_bbox : geometry_t) (glow_r : ℚ) : geometry_t :=
  { x := static_cast_int ((view_bbox.x : ℚ) - glow_r)
    y := static_cast_int ((view_bbox.y : ℚ) - glow_r)
    width := static_cast_int ((view_bbox.width : ℚ) + 2 * glow_r)
    height := static_cast_int ((view_bbox.height : ℚ) + 2 * glow_r) }

/-- The normalized-device edges `left`, `right`, `top`, `bottom` of `render`. -/
structure ndc_t where
  left : Option ℚ
  right : Option ℚ
  top : Option ℚ
  bottom : Option ℚ
  deriving DecidableEq, Repr

/-- The edges `render` computes from `geom` and the target geometry. -/
def render_ndc (geom fb_geom : geometry_t) : ndc_t :=
  let fb_w : ℚ := fb_geom.width
  let fb_h : ℚ := fb_geom.height
  let rel_x : ℚ := ((geom.x - fb_geom.x : ℤ) : ℚ)
  let rel_y : ℚ := ((geom.y - fb_geom.y : ℤ) : ℚ)
  let rel_w : ℚ := geom.width
  let rel_h : ℚ := geom.height
  { left := (float_div rel_x fb_w).map (fun q => q * 2 - 1)
    right := (float_div (rel_x + rel_w) fb_w).map (fun q => q * 2 - 1)
    top := (float_div rel_y fb_h).map (fun q => q * 2 - 1)
    bottom := (float_div (rel_y + rel_h) fb_h).map (fun q => q * 2 - 1) }

/-- The array `vertices` of `render`. -/
def ndc_t.vertices (n : ndc_t) : List (Option ℚ × Option ℚ) :=
  [(n.left, n.top), (n.right, n.top), (n.right, n.bottom), (n.left, n.bottom)]

/-- The draw that `render` issues for a mapped view with box `view_bbox`. -/
def render_draw (cfg : glow_config_t) (node : glow_decoration_node_t)
    (view_bbox : geometry_t) (target : render_target_t) : draw_t :=
  let glow_r := cfg.glow_radius
  let geom := render_geom view_bbox glow_r
  let fb_geom := target.geometry
  let color := if node.is_active then cfg.active_color else cfg.inactive_color
  let color := { color with a := color.a * node.opacity }
  let grad_color := cfg.gradient_color_2
  let grad_color := { grad_color with a := grad_color.a * node.opacity }
  { u_resolution := ((fb_geom.width : ℚ), (fb_geom.height : ℚ))
    u_border_box := (((view_bbox.x - fb_geom.x : ℤ) : ℚ), ((view_bbox.y - fb_geom.y : ℤ) : ℚ),
                     (view_bbox.width : ℚ), (view_bbox.height : ℚ))
    u_glow_color := color
    u_glow_color_2 := grad_color
    u_glow_radius := cfg.glow_radius
    u_glow_intensity := cfg.glow_intensity
    u_border_width := cfg.border_width
    u_time := node.animation_time
    u_enable_gradient := if cfg.enable_gradient then 1 else 0
    u_gradient_angle := cfg.gradient_angle
    u_corner_radius := cfg.corner_radius
    vertices := (render_ndc geom fb_geom).vertices }

/-- The method `glow_render_instance_t::render` of the render instance of
`node`, for the instruction `instr`. -/
def render (h : host_t) (cfg : glow_config_t) (driver : Nat → gl_driver_t)
    (node : glow_decoration_node_t) (instr : render_instruction_t) (g : gpu_t) : gpu_t :=
  match node.view with
  | none => g
  | some v =>
    if !h.is_mapped v then g
    else
      let r := if !g.g_glow_program.compiled then compile_shaders driver g else (true, g)
      if !r.1 then r.2
      else if node.opacity ≤ 0 then r.2
      else
        let d := render_draw cfg node (h.get_bounding_box v) instr.target
        { r.2 with gl := { r.2.gl with log := r.2.gl.log ++ [.draw_arrays d] } }

/-- Run `render` for a sequence of (node, instruction) pairs, first pair
first. -/
def render_all (h : host_t) (cfg : glow_config_t) (driver : Nat → gl_driver_t)
    (calls : List (glow_decoration_node_t × render_instruction_t)) (g : gpu_t) : gpu_t :=
  calls.foldl (fun g c => render h cfg driver c.1 c.2 g) g

/-- The number of failed shader compilations and links recorded in a log. -/
def failed_compiles (log : List gl_event) : Nat :=
  (log.filter (fun e =>
    match e with
    | .compile_shader _ false => true
    | .link_program false => true
    | _ => false)).length

/-- The number of draw calls recorded in a log. -/
def draw_calls (log : List gl_event) : Nat :=
  (log.filter (fun e =>
    match e with
    | .draw_arrays _ => true
    | _ => false)).length

/-! ## Fragment shader -/

/-- The GLSL function `sdRoundedBox`.  The built-in `length` takes
irrational values and is a parameter. -/
def sdRoundedBox (length : ℚ × ℚ → ℚ) (p b : ℚ × ℚ) (r : ℚ) : ℚ :=
  let q : ℚ × ℚ := (|p.1| - b.1 + r, |p.2| - b.2 + r)
  min (max q.1 q.2) 0 + length (max q.1 0, max q.2 0) - r

/-- The value `dist` of the fragment shader's `main` at pixel `uv`. -/
def frag_dist (length : ℚ × ℚ → ℚ) (u_border_box : ℚ × ℚ × ℚ × ℚ) (u_corner_radius : ℚ)
    (uv : ℚ × ℚ) : ℚ :=
  let center : ℚ × ℚ := (u_border_box.1 + u_border_box.2.2.1 * (1 / 2),
                         u_border_box.2.1 + u_border_box.2.2.2 * (1 / 2))
  let halfSize : ℚ × ℚ := (u_border_box.2.2.1 * (1 / 2), u_border_box.2.2.2 * (1 / 2))
  let p : ℚ × ℚ := (uv.1 - center.1, uv.2 - center.2)
  let cornerR := min u_corner_radius (min halfSize.1 halfSize.2)
  sdRoundedBox length p halfSize cornerR

/-- The GLSL built-in functions the fragment shader calls. -/
structure glsl_t where
  length : ℚ × ℚ → ℚ
  exp : ℚ → ℚ
  sin : ℚ → ℚ
  cos : ℚ → ℚ
  atan : ℚ → ℚ → ℚ
  radians : ℚ → ℚ

/-- The GLSL function `rotate2D`. -/
def rotate2D (gl : glsl_t) (p : ℚ × ℚ) (angle : ℚ) : ℚ × ℚ :=
  let c := gl.cos angle
  let s := gl.sin angle
  (p.1 * c - p.2 * s, p.1 * s + p.2 * c)

/-- The GLSL built-in `clamp(x, 0.0, 1.0)`. -/
def clamp01 (x : ℚ) : ℚ := min (max x 0) 1

/-- The GLSL built-in `mix` on `vec4`. -/
def mix (a b : vec4) (t : ℚ) : vec4 :=
  { r := a.r * (1 - t) + b.r * t
    g := a.g * (1 - t) + b.g * t
    b := a.b * (1 - t) + b.b * t
    a := a.a * (1 - t) + b.a * t }

/-- The value `halfSize` of the fragment shader's `main`. -/
def frag_halfSize (u : draw_t) : ℚ × ℚ :=
  (u.u_border_box.2.2.1 * (1 / 2), u.u_border_box.2.2.2 * (1 / 2))

/-- The value `p` of the fragment shader's `main` at pixel `uv`. -/
def frag_p (u : draw_t) (uv : ℚ × ℚ) : ℚ × ℚ :=
  let center : ℚ × ℚ := (u.u_border_box.1 + u.u_border_box.2.2.1 * (1 / 2),
                         u.u_border_box.2.1 + u.u_border_box.2.2.2 * (1 / 2))
  (uv.1 - center.1, uv.2 - center.2)

/-- The value `glowColor` of the fragment shader's `main`. -/
def frag_glowColor (gl : glsl_t) (u : draw_t) (uv : ℚ × ℚ) : vec4 :=
  if u.u_enable_gradient = 1 then
    let p := frag_p u uv
    let halfSize := frag_halfSize u
    let angle := gl.radians u.u_gradient_angle
    let rotatedP := rotate2D gl (p.1 / halfSize.1, p.2 / halfSize.2) angle
    let gradientPos := rotatedP.1 * (1 / 2) + 1 / 2
    let gradientPos := gradientPos + gl.sin (u.u_time * (1 / 2) + rotatedP.2 * 2) * (1 / 10)
    let gradientPos := clamp01 gradientPos
    mix u.u_glow_color u.u_glow_color_2 gradientPos
  else u.u_glow_color

/-- The value `glowFactor` of the fragment shader's `main` when the test
`glowFactor > 0.001` is reached. -/
def frag_glowFactor (gl : glsl_t) (u : draw_t) (uv : ℚ × ℚ) : ℚ :=
  let p := frag_p u uv
  let dist := frag_dist gl.length u.u_border_box u.u_corner_radius uv
  let innerEdge := -u.u_border_width
  let outerEdge : ℚ := 0
  let glowEnd := u.u_glow_radius
  let pulse := 1 + gl.sin (u.u_time * 2) * (1 / 20)
  if innerEdge < dist ∧ dist < glowEnd then
    if dist ≤ outerEdge then 1
    else
      let glowDist := dist / u.u_glow_radius
      let glowFactor := gl.exp (-glowDist * 3) * u.u_glow_intensity * pulse
      let edgeNoise := gl.sin (gl.atan p.2 p.1 * 8 + u.u_time) * (1 / 50)
      glowFactor + edgeNoise * glowFactor
  else 0

/-- The value `bloom` of the fragment shader's `main`. -/
def frag_bloom (gl : glsl_t) (u : draw_t) (uv : ℚ × ℚ) : ℚ :=
  let dist := frag_dist gl.length u.u_border_box u.u_corner_radius uv
  if dist ≤ 0 ∧ -u.u_border_width < dist then 6 / 5 else 1

/-- The fragment shader's `main` at pixel `uv` for the uniforms of the draw
`u`: the colour written to `fragColor`, or `none` for `discard`. -/
def frag_main (gl : glsl_t) (u : draw_t) (uv : ℚ × ℚ) : Option vec4 :=
  let glowColor := frag_glowColor gl u uv
  let glowFactor := frag_glowFactor gl u uv
  if 1 / 1000 < glowFactor then
    let bloom := frag_bloom gl u uv
    let finalColor : ℚ × ℚ × ℚ := (glowColor.r * bloom, glowColor.g * bloom, glowColor.b * bloom)
    let alpha := glowColor.a * glowFactor
    some { r := finalColor.1 * alpha, g := finalColor.2.1 * alpha, b := finalColor.2.2 * alpha,
           a := alpha }
  else none

/-! ## Rounded arithmetic

The binary32 operations of `render`, with every result passed through a
rounding function. -/

/-- Rounding to the nearest integer, ties to the even one. -/
def round_half_even (y : ℚ) : ℤ :=
  if y - ⌊y⌋ < 1 / 2 then ⌊y⌋
  else if 1 / 2 < y - ⌊y⌋ then ⌊y⌋ + 1
  else if ⌊y⌋ % 2 = 0 then ⌊y⌋ else ⌊y⌋ + 1

/-- Rounding to binary32: the nearest number with a 24-bit significand, ties
to even.  The exponent range is not bounded (no overflow, no subnormals). -/
def round_binary32 (x : ℚ) : ℚ :=
  if x = 0 then 0
  else (round_half_even (x / 2 ^ (Int.log 2 |x| - 23)) : ℚ) * 2 ^ (Int.log 2 |x| - 23)

/-- What the proofs use of a rounding function `fl` with unit roundoff `u`:
the relative error of a rounding is at most `u`, and integers below 2^24 in
magnitude are not changed. -/
def is_rounding (fl : ℚ → ℚ) (u : ℚ) : Prop :=
  0 ≤ u ∧ u ≤ 1 / 16 ∧ (∀ x : ℚ, |fl x - x| ≤ u * |x|) ∧
  (∀ k : ℤ, |k| < 2 ^ 24 → fl (k : ℚ) = k)

/-- The quad rectangle `geom` of `render` in rounded arithmetic: the integers
of the view box are converted to float, the sums and the product `2 * glow_r`
are rounded, and each component is truncated. -/
def render_geom_rounded (fl : ℚ → ℚ) (view_bbox : geometry_t) (glow_r : ℚ) : geometry_t :=
  { x := static_cast_int (fl (fl (view_bbox.x : ℚ) - glow_r))
    y := static_cast_int (fl (fl (view_bbox.y : ℚ) - glow_r))
    width := static_cast_int (fl (fl (view_bbox.width : ℚ) + fl (2 * glow_r)))
    height := static_cast_int (fl (fl (view_bbox.height : ℚ) + fl (2 * glow_r))) }

/-- The edges `left`, `right`, `top`, `bottom` of `render` in rounded
arithmetic: every `static_cast<float>`, sum, quotient, product and difference
is rounded. -/
def render_ndc_rounded (fl : ℚ → ℚ) (geom fb_geom : geometry_t) : ndc_t :=
  let fb_w : ℚ := fl (fb_geom.width : ℚ)
  let fb_h : ℚ := fl (fb_geom.height : ℚ)
  let rel_x : ℚ := fl ((geom.x - fb_geom.x : ℤ) : ℚ)
  let rel_y : ℚ := fl ((geom.y - fb_geom.y : ℤ) : ℚ)
  let rel_w : ℚ := fl (geom.width : ℚ)
  let rel_h : ℚ := fl (geom.height : ℚ)
  { left := (float_div rel_x fb_w).map (fun q => fl (fl (fl q * 2) - 1))
    right := (float_div (fl (rel_x + rel_w)) fb_w).map (fun q => fl (fl (fl q * 2) - 1))
    top := (float_div rel_y fb_h).map (fun q => fl (fl (fl q * 2) - 1))
    bottom := (float_div (fl (rel_y + rel_h)) fb_h).map (fun q => fl (fl (fl q * 2) - 1)) }

/-- The draw that `render` issues, in rounded arithmetic. -/
def render_draw_rounded (fl : ℚ → ℚ) (cfg : glow_config_t) (node : glow_decoration_node_t)
    (view_bbox : geometry_t) (target : render_target_t) : draw_t :=
  let glow_r := cfg.glow_radius
  let geom := render_geom_rounded fl view_bbox glow_r
  let fb_geom := target.geometry
  let color := if node.is_active then cfg.active_color else cfg.inactive_color
  let color := { color with a := fl (color.a * node.opacity) }
  let grad_color := cfg.gradient_color_2
  let grad_color := { grad_color with a := fl (grad_color.a * node.opacity) }
  { u_resolution := (fl (fb_geom.width : ℚ), fl (fb_geom.height : ℚ))
    u_border_box := (fl ((view_bbox.x - fb_geom.x : ℤ) : ℚ),
                     fl ((view_bbox.y - fb_geom.y : ℤ) : ℚ),
                     fl (view_bbox.width : ℚ), fl (view_bbox.height : ℚ))
    u_glow_color := color
    u_glow_color_2 := grad_color
    u_glow_radius := cfg.glow_radius
    u_glow_intensity := cfg.glow_intensity
    u_border_width := cfg.border_width
    u_time := node.animation_time
    u_enable_gradient := if cfg.enable_gradient then 1 else 0
    u_gradient_angle := cfg.gradient_angle
    u_corner_radius := cfg.corner_radius
    vertices := (render_ndc_rounded fl geom fb_geom).vertices }

/-- The method `glow_render_instance_t::render` in rounded arithmetic: the
control flow of `render`, with the draw computed by `render_draw_rounded`.
With the identity for `fl` it is `render`. -/
def render_rounded (fl : ℚ → ℚ) (h : host_t) (cfg : glow_config_t) (driver : Nat → gl_driver_t)
    (node : glow_decoration_node_t) (instr : render_instruction_t) (g : gpu_t) : gpu_t :=
  match node.view with
  | none => g
  | some v =>
    if !h.is_mapped v then g
    else
      let r := if !g.g_glow_program.compiled then compile_shaders driver g else (true, g)
      if !r.1 then r.2
      else if node.opacity ≤ 0 then r.2
      else
        let d := render_draw_rounded fl cfg node (h.get_bounding_box v) instr.target
        { r.2 with gl := { r.2.gl with log := r.2.gl.log ++ [.draw_arrays d] } }

/-! ## The statements of the specification, transcribed -/

/-- The rounded-box distance as the specification words it:
`max(min(qx,qy),0) + length(max(q,0)) − cornerRadius` with
`q = |p| − halfSize + cornerRadius`. -/
def spec_sdRoundedBox (length : ℚ × ℚ → ℚ) (p b : ℚ × ℚ) (r : ℚ) : ℚ :=
  let q : ℚ × ℚ := (|p.1| - b.1 + r, |p.2| - b.2 + r)
  max (min q.1 q.2) 0 + length (max q.1 0, max q.2 0) - r

/-- The inverse of the normalized-device transform of a target: from a
normalized coordinate back to output coordinates along one axis. -/
def ndc_inverse (origin size : ℤ) (c : ℚ) : ℚ :=
  (c + 1) / 2 * (size : ℚ) + (origin : ℚ)

/-- A rectangle with rational components. -/
structure rect_t where
  x : ℚ
  y : ℚ
  width : ℚ
  height : ℚ
  deriving DecidableEq, Repr

/-- The round trip of the specification: map the normalized-device edges back
through the inverse transform of the target and shrink the rectangle by the
glow radius on all sides.  It is `none` when an edge is not a number. -/
def round_trip (n : ndc_t) (fb_geom : geometry_t) (glow_r : ℚ) : Option rect_t :=
  match n.left, n.right, n.top, n.bottom with
  | some l, some r, some t, some b =>
    let x0 := ndc_inverse fb_geom.x fb_geom.width l
    let x1 := ndc_inverse fb_geom.x fb_geom.width r
    let y0 := ndc_inverse fb_geom.y fb_geom.height t
    let y1 := ndc_inverse fb_geom.y fb_geom.height b
    some { x := x0 + glow_r, y := y0 + glow_r,
           width := (x1 - x0) - 2 * glow_r, height := (y1 - y0) - 2 * glow_r }
  | _, _, _, _ => none

/-- A geometry read as a rational rectangle. -/
def geometry_t.to_rect (g : geometry_t) : rect_t :=
  { x := g.x, y := g.y, width := g.width, height := g.height }

/-- The target contains the box `B` expanded by the glow radius on all
sides. -/
def target_contains (fb_geom B : geometry_t) (glow_r : ℚ) : Prop :=
  (fb_geom.x : ℚ) ≤ B.x - glow_r ∧ (fb_geom.y : ℚ) ≤ B.y - glow_r ∧
  (B.x : ℚ) + B.width + glow_r ≤ fb_geom.x + fb_geom.width ∧
  (B.y : ℚ) + B.height + glow_r ≤ fb_geom.y + fb_geom.height

/-- The round trip of the specification on the array `vertices` of a draw:
the edges are read from the first and the third vertex. -/
def round_trip_vertices (vs : List (Option ℚ × Option ℚ)) (fb_geom : geometry_t)
    (glow_r : ℚ) : Option rect_t :=
  match vs with
  | [(l, t), (r, _), (_, b), _] => round_trip ⟨l, r, t, b⟩ fb_geom glow_r
  | _ => none

/-- The coordinates of the target are below 2^24 in magnitude, so that
binary32 holds every integer inside the target exactly. -/
def target_small (fb_geom : geometry_t) : Prop :=
  |fb_geom.x| + fb_geom.width < 2 ^ 24 ∧ |fb_geom.y| + fb_geom.height < 2 ^ 24

/-- The rectangle `a` lies inside the rectangle `b`. -/
def geometry_t.inside (a b : geometry_t) : Prop :=
  b.x ≤ a.x ∧ b.y ≤ a.y ∧ a.x + a.width ≤ b.x + b.width ∧ a.y + a.height ≤ b.y + b.height

instance (a b : geometry_t) : Decidable (a.inside b) := by
  unfold geometry_t.inside; infer_instance

/-! ## Concrete inputs -/

/-- A compositor with every view mapped, toplevel and to be decorated; view 1
has the box (100, 100, 200, 150), every other view (1000, 100, 200, 150). -/
def host_example : host_t :=
  { is_mapped := fun _ => true
    get_bounding_box := fun v => if v = 1 then ⟨100, 100, 200, 150⟩ else ⟨1000, 100, 200, 150⟩
    toplevel_cast := fun _ => true
    should_be_decorated := fun _ => true }

/-- Stand-ins for the GLSL built-ins, exact where the concrete inputs below
use them: `length` on axis-parallel vectors, `exp`, `sin`, `cos`, `atan` and
`radians` at 0. -/
def glsl_example : glsl_t :=
  { length := fun v => |v.1| + |v.2|
    exp := fun _ => 1
    sin := fun _ => 0
    cos := fun _ => 1
    atan := fun _ _ => 0
    radians := fun _ => 0 }

/-- The uniforms `render` uploads for an inactive, fully faded-in decoration of
view 1 of the example compositor with the default style on the target
(0, 0, 1920, 1080); the quad is not used by the shader and left empty. -/
def draw_example : draw_t :=
  { u_resolution := (1920, 1080)
    u_border_box := (100, 100, 200, 150)
    u_glow_color := ⟨3/10, 3/10, 3/10, 1⟩
    u_glow_color_2 := ⟨0, 1/2, 1, 1⟩
    u_glow_radius := 20
    u_glow_intensity := 1
    u_border_width := 2
    u_time := 0
    u_enable_gradient := 0
    u_gradient_angle := 45
    u_corner_radius := 10
    vertices := [] }

/-! ## Theorems -/

/-! ### Fade-in opacity -/

/-- The map after `update_animation` holds, entry by entry, the node that the
loop body computes. -/
theorem update_animation_loop_fst (h : host_t) (cfg : glow_config_t) (elapsed : ℚ)
    (m : List (wayfire_view × glow_decoration_node_t)) :
    (update_animation_loop h cfg elapsed m).1 =
      m.map (fun e => (e.1, (update_animation_node h cfg elapsed e.1 e.2).1)) := by
  induction m with
  | nil => rfl
  | cons e rest ih =>
    obtain ⟨view, node⟩ := e
    simp [update_animation_loop, ih]

/-- The opacity stored for a mapped view, in closed form. -/
theorem opacity_at_eq (h : host_t) (cfg : glow_config_t) (v : Nat)
    (node : glow_decoration_node_t) (elapsed : ℚ) (hm : h.is_mapped v = true) :
    opacity_at h cfg (some v) node elapsed =
      if elapsed - node.creation_time < 1 then 0
      else min 1 ((elapsed - node.creation_time - 1) / (1 / 2)) := by
  simp only [opacity_at, update_animation_node, hm, if_true,
    glow_decoration_node_t.set_animation_time, DELAY, FADE_DURATION]
  split_ifs <;> rfl

/-- C1: for every elapsed time and every decoration of a mapped view in the
registry, `update_animation` leaves a node for that view (same identity, same
creation time) whose opacity is 0 when `age = elapsed - creation_time` is
below 1.0 and `min(1, (age - 1.0) / 0.5)` otherwise; with `creation_time = 0`
the opacity is 0 at t = 0.5, 0.5 at t = 1.25, 1 at t = 1.5 and 1 at t = 3. -/
theorem update_animation_opacity (h : host_t) (cfg : glow_config_t) (elapsed : ℚ)
    (s : glow_decoration_t) (v : Nat) (node : glow_decoration_node_t)
    (he : (some v, node) ∈ s.decorations) (hm : h.is_mapped v = true) :
    (∃ node', (some v, node') ∈ (update_animation h cfg elapsed s).decorations ∧
      node'.addr = node.addr ∧ node'.creation_time = node.creation_time ∧
      node'.opacity =
        if elapsed - node.creation_time < 1 then 0
        else min 1 ((elapsed - node.creation_time - 1) / (1 / 2))) ∧
    opacity_at h cfg (some v) { node with creation_time := 0 } (1 / 2) = 0 ∧
    opacity_at h cfg (some v) { node with creation_time := 0 } (5 / 4) = 1 / 2 ∧
    opacity_at h cfg (some v) { node with creation_time := 0 } (3 / 2) = 1 ∧
    opacity_at h cfg (some v) { node with creation_time := 0 } 3 = 1 := by
  refine ⟨⟨(update_animation_node h cfg elapsed (some v) node).1, ?_, ?_, ?_, ?_⟩, ?_, ?_, ?_, ?_⟩
  · simp only [update_animation, update_animation_loop_fst]
    exact List.mem_map.mpr ⟨(some v, node), he, rfl⟩
  · simp only [update_animation_node, hm, if_true, glow_decoration_node_t.set_animation_time]
    split_ifs <;> rfl
  · simp only [update_animation_node, hm, if_true, glow_decoration_node_t.set_animation_time]
    split_ifs <;> rfl
  · exact opacity_at_eq h cfg v node elapsed hm
  · rw [opacity_at_eq h cfg v _ _ hm]; norm_num
  · rw [opacity_at_eq h cfg v _ _ hm]; norm_num
  · rw [opacity_at_eq h cfg v _ _ hm]; norm_num
  · rw [opacity_at_eq h cfg v _ _ hm]; norm_num

/-- C1 at a concrete input: a decoration of the mapped view 1 created at time 0
in a registry of one entry has opacity 1/2 at t = 1.25. -/
theorem update_animation_opacity_witness :
    opacity_at host_example {} (some 1) { addr := 0, view := some 1 } (5 / 4) = 1 / 2 :=
  (update_animation_opacity host_example {} (5 / 4)
    { decorations := [(some 1, { addr := 0, view := some 1 })] } 1
    { addr := 0, view := some 1 } (List.mem_singleton.mpr rfl) rfl).2.2.1

/-- The opacity stored for a mapped view is non-decreasing in elapsed time,
lies in [0, 1], is 0 below age 1.0 and 1 from age 1.5 on. -/
theorem opacity_at_monotone (h : host_t) (cfg : glow_config_t) (v : Nat)
    (node : glow_decoration_node_t) (hm : h.is_mapped v = true) (t1 t2 : ℚ) (ht : t1 ≤ t2) :
    opacity_at h cfg (some v) node t1 ≤ opacity_at h cfg (some v) node t2 ∧
    0 ≤ opacity_at h cfg (some v) node t1 ∧ opacity_at h cfg (some v) node t1 ≤ 1 ∧
    (t1 - node.creation_time < 1 → opacity_at h cfg (some v) node t1 = 0) ∧
    (3 / 2 ≤ t1 - node.creation_time → opacity_at h cfg (some v) node t1 = 1) := by
  rw [opacity_at_eq h cfg v node t1 hm, opacity_at_eq h cfg v node t2 hm]
  refine ⟨?_, ?_, ?_, ?_, ?_⟩
  · split_ifs with h1 h2 h2
    · exact le_refl _
    · apply le_min (by norm_num)
      apply div_nonneg _ (by norm_num)
      linarith
    · exfalso; linarith
    · apply min_le_min (le_refl _)
      apply div_le_div_of_nonneg_right _ (by norm_num)
      linarith
  · split_ifs with h1
    · exact le_refl _
    · apply le_min (by norm_num)
      apply div_nonneg _ (by norm_num)
      linarith
  · split_ifs with h1
    · norm_num
    · exact min_le_left _ _
  · intro h1; simp [h1]
  · intro h1
    have h2 : ¬ (t1 - node.creation_time < 1) := by linarith
    rw [if_neg h2]
    apply min_eq_left
    rw [le_div_iff₀ (by norm_num)]
    linarith

/-- The lookup of a view after `update_animation` is the loop body applied to
the lookup before. -/
theorem map_find_update_animation (h : host_t) (cfg : glow_config_t) (elapsed : ℚ)
    (s : glow_decoration_t) (k : wayfire_view) :
    map_find (update_animation h cfg elapsed s).decorations k =
      (map_find s.decorations k).map (fun n => (update_animation_node h cfg elapsed k n).1) := by
  simp only [update_animation, update_animation_loop_fst]
  induction s.decorations with
  | nil => rfl
  | cons e rest ih =>
    obtain ⟨k', n'⟩ := e
    simp only [List.map_cons, map_find]
    split_ifs with hk
    · subst hk
      rfl
    · exact ih

/-- The loop body of `update_animation` keeps the creation time. -/
theorem update_animation_node_creation_time (h : host_t) (cfg : glow_config_t) (elapsed : ℚ)
    (view : wayfire_view) (node : glow_decoration_node_t) :
    (update_animation_node h cfg elapsed view node).1.creation_time = node.creation_time := by
  cases view with
  | none => rfl
  | some v =>
    simp only [update_animation_node, glow_decoration_node_t.set_animation_time]
    split_ifs <;> rfl

/-- C2: for a fixed decoration (the registry entry of a mapped view, with its
creation time) and times t1 ≤ t2, the opacity that `update_animation` stores
at t1 is at most the opacity it stores at t2, both when the tick at t2 follows
the tick at t1 and when it is run on the same state; the creation time is
kept; the stored opacity lies in [0, 1], is 0 whenever
`t1 - creation_time < 1.0` and is exactly 1 whenever
`t1 - creation_time ≥ 1.5`. -/
theorem update_animation_monotone (h : host_t) (cfg : glow_config_t) (s : glow_decoration_t)
    (v : Nat) (node : glow_decoration_node_t)
    (hf : map_find s.decorations (some v) = some node) (hm : h.is_mapped v = true)
    (t1 t2 : ℚ) (ht : t1 ≤ t2) :
    ∃ n1 n2 n2',
      map_find (update_animation h cfg t1 s).decorations (some v) = some n1 ∧
      map_find (update_animation h cfg t2 (update_animation h cfg t1 s)).decorations (some v) =
        some n2 ∧
      map_find (update_animation h cfg t2 s).decorations (some v) = some n2' ∧
      n1.creation_time = node.creation_time ∧ n2.creation_time = node.creation_time ∧
      n1.opacity ≤ n2.opacity ∧ n1.opacity ≤ n2'.opacity ∧
      0 ≤ n1.opacity ∧ n1.opacity ≤ 1 ∧
      (t1 - node.creation_time < 1 → n1.opacity = 0) ∧
      (3 / 2 ≤ t1 - node.creation_time → n1.opacity = 1) := by
  have hc1 := update_animation_node_creation_time h cfg t1 (some v) node
  have hmono := opacity_at_monotone h cfg v node hm t1 t2 ht
  have hseq : opacity_at h cfg (some v) (update_animation_node h cfg t1 (some v) node).1 t2 =
      opacity_at h cfg (some v) node t2 := by
    rw [opacity_at_eq h cfg v _ t2 hm, opacity_at_eq h cfg v node t2 hm, hc1]
  refine ⟨(update_animation_node h cfg t1 (some v) node).1,
    (update_animation_node h cfg t2 (some v) (update_animation_node h cfg t1 (some v) node).1).1,
    (update_animation_node h cfg t2 (some v) node).1, ?_, ?_, ?_, hc1, ?_, ?_, hmono.1,
    hmono.2.1, hmono.2.2.1, hmono.2.2.2.1, hmono.2.2.2.2⟩
  · rw [map_find_update_animation, hf]
    rfl
  · rw [map_find_update_animation, map_find_update_animation, hf]
    rfl
  · rw [map_find_update_animation, hf]
    rfl
  · rw [update_animation_node_creation_time, hc1]
  · show opacity_at h cfg (some v) node t1 ≤
      opacity_at h cfg (some v) (update_animation_node h cfg t1 (some v) node).1 t2
    rw [hseq]
    exact hmono.1

/-- C2 at a concrete input: a registry holding a decoration of the mapped
view 1 created at time 2; the opacity stored by the tick at t = 3.25 lies in
[0, 1] and is at most the opacity stored by the following tick at t = 4. -/
theorem update_animation_monotone_witness :
    ∃ n1 n2,
      map_find (update_animation host_example {} (13 / 4)
        { decorations := [(some 1, { addr := 0, view := some 1, creation_time := 2 })] }
        ).decorations (some 1) = some n1 ∧
      map_find (update_animation host_example {} 4 (update_animation host_example {} (13 / 4)
        { decorations := [(some 1, { addr := 0, view := some 1, creation_time := 2 })] })
        ).decorations (some 1) = some n2 ∧
      n1.opacity ≤ n2.opacity ∧ 0 ≤ n1.opacity ∧ n1.opacity ≤ 1 := by
  obtain ⟨n1, n2, -, w1, w2, -, -, -, w3, -, w4, w5, -, -⟩ :=
    update_animation_monotone host_example {}
      { decorations := [(some 1, { addr := 0, view := some 1, creation_time := 2 })] } 1
      { addr := 0, view := some 1, creation_time := 2 } (by simp [map_find]) rfl
      (13 / 4) 4 (by norm_num)
  exact ⟨n1, n2, w1, w2, w3, w4, w5⟩

/-! ### Quad geometry -/

/-- Truncation leaves an integer unchanged. -/
theorem static_cast_int_intCast (k : ℤ) : static_cast_int (k : ℚ) = k := by
  unfold static_cast_int
  split_ifs <;> simp

/-- Truncation moves a number by less than one. -/
theorem static_cast_int_sub_lt (q : ℚ) : |(static_cast_int q : ℚ) - q| < 1 := by
  unfold static_cast_int
  rw [abs_lt]
  split_ifs with h
  · have h1 := Int.floor_le q
    have h2 := Int.lt_floor_add_one q
    constructor <;> linarith
  · have h1 := Int.le_ceil q
    have h2 := Int.ceil_lt_add_one q
    constructor <;> linarith

/-! ### Damage clipping -/

/-- A box intersection that exists holds exactly the common pixels and has a
pixel. -/
theorem box_inter_some (a b c : pixman_box) (hc : box_inter a b = some c) :
    (∀ px py, c.contains px py ↔ a.contains px py ∧ b.contains px py) ∧
    c.contains c.x1 c.y1 := by
  unfold box_inter at hc
  simp only at hc
  split_ifs at hc with hlt
  cases hc
  refine ⟨fun px py => ?_, ?_⟩
  · simp only [pixman_box.contains, max_le_iff, lt_min_iff]
    tauto
  · simp only [pixman_box.contains, le_refl, true_and]
    exact ⟨hlt.1, hlt.2⟩

/-- Two boxes without an intersection share no pixel. -/
theorem box_inter_none (a b : pixman_box) (hc : box_inter a b = none) (px py : ℤ) :
    ¬ (a.contains px py ∧ b.contains px py) := by
  unfold box_inter at hc
  simp only at hc
  split_ifs at hc with hlt
  rintro ⟨ha, hb⟩
  apply hlt
  simp only [pixman_box.contains] at ha hb
  simp only [max_lt_iff, lt_min_iff]
  omega

/-- The region `r1 &= r2` holds exactly the pixels of both. -/
theorem region_inter_contains (r1 r2 : region_t) (px py : ℤ) :
    region_contains (region_inter r1 r2) px py ↔
      region_contains r1 px py ∧ region_contains r2 px py := by
  simp only [region_contains, region_inter, List.mem_flatMap, List.mem_filterMap]
  constructor
  · rintro ⟨c, ⟨a, ha, b, hb, hab⟩, hc⟩
    have := ((box_inter_some a b c hab).1 px py).mp hc
    exact ⟨⟨a, ha, this.1⟩, ⟨b, hb, this.2⟩⟩
  · rintro ⟨⟨a, ha, hpa⟩, ⟨b, hb, hpb⟩⟩
    cases hab : box_inter a b with
    | none => exact absurd ⟨hpa, hpb⟩ (box_inter_none a b hab px py)
    | some c =>
      exact ⟨c, ⟨a, ha, b, hb, hab⟩, ((box_inter_some a b c hab).1 px py).mpr ⟨hpa, hpb⟩⟩

/-- The test `empty()` on an intersection is true exactly when the two
regions share no pixel. -/
theorem region_inter_empty_iff (r1 r2 : region_t) :
    region_empty (region_inter r1 r2) = true ↔
      ¬ ∃ px py, region_contains r1 px py ∧ region_contains r2 px py := by
  constructor
  · intro he
    rintro ⟨px, py, hp⟩
    have hc := (region_inter_contains r1 r2 px py).mpr hp
    simp only [region_empty, List.isEmpty_iff] at he
    rw [he] at hc
    simp [region_contains] at hc
  · intro hne
    simp only [region_empty, List.isEmpty_iff]
    by_contra hnil
    obtain ⟨c, hc⟩ := List.exists_mem_of_ne_nil _ hnil
    have hc' := hc
    simp only [region_inter, List.mem_flatMap, List.mem_filterMap] at hc'
    obtain ⟨a, ha, b, hb, hab⟩ := hc'
    have hin : region_contains (region_inter r1 r2) c.x1 c.y1 :=
      ⟨c, hc, (box_inter_some a b c hab).2⟩
    exact hne ⟨c.x1, c.y1, (region_inter_contains r1 r2 _ _).mp hin⟩

/-- C4: `schedule_instructions` appends exactly one instruction, carrying
the intersection of the node's bounding box with the dirty region, when the
two share a pixel, and appends nothing when they do not; the carried region
holds exactly the pixels of both; every instruction emitted has a pixel in the
dirty region; and when the dirty region meets A's box but not B's, a pass over
A and B emits exactly one instruction, for A. -/
theorem schedule_instructions_clip (h : host_t) (cfg : glow_config_t)
    (A B : glow_decoration_node_t) (instructions : List render_instruction_t)
    (target : render_target_t) (damage : region_t) :
    ((∃ px py, region_contains (region_of_box (A.get_bounding_box h cfg)) px py ∧
        region_contains damage px py) →
      schedule_instructions h cfg A instructions target damage =
        instructions ++ [⟨A.addr, target, region_inter (region_of_box (A.get_bounding_box h cfg)) damage⟩]) ∧
    ((¬ ∃ px py, region_contains (region_of_box (A.get_bounding_box h cfg)) px py ∧
        region_contains damage px py) →
      schedule_instructions h cfg A instructions target damage = instructions) ∧
    (∀ px py,
      region_contains (region_inter (region_of_box (A.get_bounding_box h cfg)) damage) px py ↔
        region_contains (region_of_box (A.get_bounding_box h cfg)) px py ∧
        region_contains damage px py) ∧
    (∀ i ∈ schedule_instructions h cfg A [] target damage,
      ∃ px py, region_contains i.damage px py ∧ region_contains damage px py) ∧
    ((∃ px py, region_contains (region_of_box (A.get_bounding_box h cfg)) px py ∧
        region_contains damage px py) →
      (¬ ∃ px py, region_contains (region_of_box (B.get_bounding_box h cfg)) px py ∧
        region_contains damage px py) →
      schedule_pass h cfg [A, B] target damage =
        [⟨A.addr, target, region_inter (region_of_box (A.get_bounding_box h cfg)) damage⟩]) := by
  have hpos : ∀ (n : glow_decoration_node_t) (l : List render_instruction_t),
      (∃ px py, region_contains (region_of_box (n.get_bounding_box h cfg)) px py ∧
        region_contains damage px py) →
      schedule_instructions h cfg n l target damage =
        l ++ [⟨n.addr, target, region_inter (region_of_box (n.get_bounding_box h cfg)) damage⟩] := by
    intro n l hex
    have hne : region_empty (region_inter (region_of_box (n.get_bounding_box h cfg)) damage)
        ≠ true := fun he => (region_inter_empty_iff _ _).mp he hex
    simp only [schedule_instructions]
    rw [if_pos (by simpa using hne)]
  have hneg : ∀ (n : glow_decoration_node_t) (l : List render_instruction_t),
      (¬ ∃ px py, region_contains (region_of_box (n.get_bounding_box h cfg)) px py ∧
        region_contains damage px py) →
      schedule_instructions h cfg n l target damage = l := by
    intro n l hex
    have he := (region_inter_empty_iff _ _).mpr hex
    simp only [schedule_instructions]
    rw [if_neg (by simp [he])]
  refine ⟨hpos A instructions, hneg A instructions, fun px py => region_inter_contains _ _ px py,
    ?_, ?_⟩
  · intro i hi
    by_cases hex : ∃ px py, region_contains (region_of_box (A.get_bounding_box h cfg)) px py ∧
        region_contains damage px py
    · rw [hpos A [] hex] at hi
      simp only [List.nil_append, List.mem_singleton] at hi
      subst hi
      obtain ⟨px, py, hp⟩ := hex
      exact ⟨px, py, (region_inter_contains _ _ px py).mpr hp, hp.2⟩
    · rw [hneg A [] hex] at hi
      cases hi
  · intro hA hB
    simp only [schedule_pass, List.foldl_cons, List.foldl_nil]
    rw [hpos A [] hA, hneg B _ hB]
    rfl

/-- C4 at a concrete input: decorations of views 1 and 2 of the example
compositor with the default style, and a dirty region equal to the first
decoration's box (78, 78, 244, 194): one instruction, for the first. -/
theorem schedule_instructions_clip_witness :
    schedule_pass host_example {}
        [{ addr := 0, view := some 1 }, { addr := 1, view := some 2 }]
        ⟨⟨0, 0, 1920, 1080⟩⟩ [⟨78, 78, 322, 272⟩] =
      [{ inst := 0, target := ⟨⟨0, 0, 1920, 1080⟩⟩, damage := [⟨78, 78, 322, 272⟩] }] := by
  have hx : static_cast_int ((20 : ℚ) + 2) = 22 := by
    have := static_cast_int_intCast 22
    norm_num at this ⊢
    exact this
  have hA : glow_decoration_node_t.get_bounding_box host_example {}
      { addr := 0, view := some 1 } = ⟨78, 78, 244, 194⟩ := by
    simp [glow_decoration_node_t.get_bounding_box, host_example, hx]
  have hB : glow_decoration_node_t.get_bounding_box host_example {}
      { addr := 1, view := some 2 } = ⟨978, 78, 244, 194⟩ := by
    simp [glow_decoration_node_t.get_bounding_box, host_example, hx]
  have w := (schedule_instructions_clip host_example {}
    { addr := 0, view := some 1 } { addr := 1, view := some 2 } []
    ⟨⟨0, 0, 1920, 1080⟩⟩ [⟨78, 78, 322, 272⟩]).2.2.2.2
    (by
      rw [hA]
      refine ⟨78, 78, ?_, ?_⟩ <;>
        simp [region_contains, region_of_box, pixman_box.contains])
    (by
      rw [hB]
      rintro ⟨px, py, h1, h2⟩
      simp [region_contains, region_of_box, pixman_box.contains] at h1 h2
      omega)
  rw [w, hA]
  simp [region_inter, region_of_box, box_inter]

/-! ### The registry -/

/-- A list whose images under `f` are distinct has at most one element with a
given image. -/
theorem filter_length_le_one {α β : Type} [DecidableEq β] (f : α → β) (b : β) (l : List α)
    (hn : (l.map f).Nodup) : (l.filter (fun e => f e = b)).length ≤ 1 := by
  induction l with
  | nil => simp
  | cons x xs ih =>
    rw [List.map_cons, List.nodup_cons] at hn
    by_cases hx : f x = b
    · have hnil : xs.filter (fun e => f e = b) = [] := by
        rw [List.filter_eq_nil_iff]
        intro y hy hfy
        apply hn.1
        have hfy' : f y = b := by simpa using hfy
        rw [hx, ← hfy']
        exact List.mem_map_of_mem f hy
      simp [List.filter_cons, hx, hnil]
    · simpa [List.filter_cons, hx] using ih hn.2

/-- A successful lookup returns an entry of the map. -/
theorem map_find_some_mem (m : List (wayfire_view × glow_decoration_node_t))
    (k : wayfire_view) (n : glow_decoration_node_t) (hf : map_find m k = some n) :
    (k, n) ∈ m := by
  induction m with
  | nil => simp [map_find] at hf
  | cons e rest ih =>
    obtain ⟨k', n'⟩ := e
    unfold map_find at hf
    split_ifs at hf with hk
    · cases hf
      subst hk
      exact List.mem_cons_self _ _
    · exact List.mem_cons_of_mem _ (ih hf)

/-- A failed lookup means the key is absent. -/
theorem map_find_none_not_mem (m : List (wayfire_view × glow_decoration_node_t))
    (k : wayfire_view) (hf : map_find m k = none) : k ∉ m.map Prod.fst := by
  induction m with
  | nil => simp
  | cons e rest ih =>
    obtain ⟨k', n'⟩ := e
    unfold map_find at hf
    split_ifs at hf with hk
    simp only [List.map_cons, List.mem_cons, not_or]
    exact ⟨fun h => hk h.symm, ih hf⟩

/-- With unique keys, an entry of the map is what the lookup returns. -/
theorem map_find_of_mem (m : List (wayfire_view × glow_decoration_node_t))
    (hn : (m.map Prod.fst).Nodup) (k : wayfire_view) (n : glow_decoration_node_t)
    (hm : (k, n) ∈ m) : map_find m k = some n := by
  induction m with
  | nil => cases hm
  | cons e rest ih =>
    obtain ⟨k', n'⟩ := e
    rw [List.map_cons, List.nodup_cons] at hn
    unfold map_find
    rcases List.mem_cons.mp hm with heq | hrest
    · cases heq
      simp
    · have hne : k' ≠ k := by
        rintro rfl
        exact hn.1 (List.mem_map.mpr ⟨(k', n), hrest, rfl⟩)
      rw [if_neg hne]
      exact ih hn.2 hrest

/-- Assigning to an absent key adds one entry. -/
theorem map_assign_perm (m : List (wayfire_view × glow_decoration_node_t))
    (k : wayfire_view) (v : glow_decoration_node_t) (hk : k ∉ m.map Prod.fst) :
    List.Perm (map_assign m k v) ((k, v) :: m) := by
  induction m with
  | nil => simp [map_assign]
  | cons e rest ih =>
    obtain ⟨k', n'⟩ := e
    simp only [List.map_cons, List.mem_cons, not_or] at hk
    unfold map_assign
    rw [if_neg (fun h => hk.1 h.symm)]
    split_ifs
    · exact List.Perm.refl _
    · exact ((ih hk.2).cons (k', n')).trans (List.Perm.swap _ _ _)

/-- Erasing returns a sublist. -/
theorem map_erase_sublist (m : List (wayfire_view × glow_decoration_node_t))
    (k : wayfire_view) : List.Sublist (map_erase m k) m := by
  induction m with
  | nil => exact List.Sublist.refl _
  | cons e rest ih =>
    obtain ⟨k', n'⟩ := e
    unfold map_erase
    split_ifs
    · exact List.sublist_cons_self _ _
    · exact ih.cons₂ _

/-- With unique keys, erasing a key removes exactly the entries with that
key. -/
theorem map_erase_mem (m : List (wayfire_view × glow_decoration_node_t))
    (hn : (m.map Prod.fst).Nodup) (k : wayfire_view)
    (e : wayfire_view × glow_decoration_node_t) :
    e ∈ map_erase m k ↔ e ∈ m ∧ e.1 ≠ k := by
  induction m with
  | nil => simp [map_erase]
  | cons x rest ih =>
    obtain ⟨k', n'⟩ := x
    rw [List.map_cons, List.nodup_cons] at hn
    unfold map_erase
    split_ifs with hk
    · subst hk
      constructor
      · intro he
        refine ⟨List.mem_cons_of_mem _ he, ?_⟩
        intro h1
        apply hn.1
        rw [← h1]
        exact List.mem_map.mpr ⟨e, he, rfl⟩
      · rintro ⟨he, hne⟩
        rcases List.mem_cons.mp he with heq | hrest
        · exact absurd (by rw [heq]) hne
        · exact hrest
    · simp only [List.mem_cons, ih hn.2]
      constructor
      · rintro (heq | ⟨he, hne⟩)
        · subst heq
          exact ⟨Or.inl rfl, hk⟩
        · exact ⟨Or.inr he, hne⟩
      · rintro ⟨heq | he, hne⟩
        · exact Or.inl heq
        · exact Or.inr ⟨he, hne⟩

/-- The loop of `update_focus` keeps every key and node identity. -/
theorem update_focus_loop_ids (h : host_t) (cfg : glow_config_t) (f : wayfire_view)
    (m : List (wayfire_view × glow_decoration_node_t)) :
    map_ids (update_focus_loop h cfg f m).1 = map_ids m := by
  induction m with
  | nil => rfl
  | cons e rest ih =>
    obtain ⟨view, node⟩ := e
    simp only [map_ids] at ih
    simp only [update_focus_loop, map_ids, List.map_cons, ih,
      glow_decoration_node_t.set_active]
    split_ifs <;> rfl

/-- The loop of `update_animation` keeps every key and node identity. -/
theorem update_animation_loop_ids (h : host_t) (cfg : glow_config_t) (elapsed : ℚ)
    (m : List (wayfire_view × glow_decoration_node_t)) :
    map_ids (update_animation_loop h cfg elapsed m).1 = map_ids m := by
  induction m with
  | nil => rfl
  | cons e rest ih =>
    obtain ⟨view, node⟩ := e
    simp only [map_ids] at ih
    simp only [update_animation_loop, map_ids, List.map_cons, ih]
    congr 2
    cases view with
    | none => rfl
    | some v =>
      simp only [update_animation_node, glow_decoration_node_t.set_animation_time]
      split_ifs <;> rfl

/-- The keys of a map, read off its (key, identity) pairs. -/
theorem map_ids_fst (m : List (wayfire_view × glow_decoration_node_t)) :
    (map_ids m).map Prod.fst = m.map Prod.fst := by
  simp [map_ids, List.map_map, Function.comp_def]

/-- Membership in the (key, identity) pairs of a map. -/
theorem mem_map_ids (m : List (wayfire_view × glow_decoration_node_t)) (k : wayfire_view)
    (a : Nat) : (k, a) ∈ map_ids m ↔ ∃ n, (k, n) ∈ m ∧ n.addr = a := by
  simp only [map_ids, List.mem_map, Prod.mk.injEq, Prod.exists]
  constructor
  · rintro ⟨k', n, hm, rfl, rfl⟩
    exact ⟨n, hm, rfl⟩
  · rintro ⟨n, hm, rfl⟩
    exact ⟨k, n, hm, rfl, rfl⟩

/-- The method `set_active` keeps the identity of the node. -/
theorem set_active_addr (h : host_t) (cfg : glow_config_t) (n : glow_decoration_node_t)
    (a : Bool) : (n.set_active h cfg a).1.addr = n.addr := by
  unfold glow_decoration_node_t.set_active
  split_ifs <;> rfl

/-- The initial plugin state is well formed. -/
theorem registry_inv_init : registry_inv {} := by
  simp [registry_inv, map_ids]

/-- The method `add_decoration` keeps the state well formed. -/
theorem registry_inv_add (h : host_t) (cfg : glow_config_t) (now : ℚ) (view : wayfire_view)
    (s : glow_decoration_t) (hs : registry_inv s) :
    registry_inv (add_decoration h cfg now view s) := by
  cases view with
  | none => exact hs
  | some v =>
    unfold add_decoration
    simp only
    split_ifs with hc ht
    · exact hs
    · exact hs
    · obtain ⟨h1, h2, h3, h4, h5⟩ := hs
      have habs : some v ∉ s.decorations.map Prod.fst := by
        apply map_find_none_not_mem
        simp only [map_count, Bool.not_eq_true, Option.not_isSome,
          Option.isNone_iff_eq_none] at hc
        simpa using hc
      set node : glow_decoration_node_t :=
        { (glow_decoration_node_t.set_active h cfg { addr := s.next_addr, view := some v }
            (some v == s.focused_view)).1 with creation_time := now } with hnode
      have haddr : node.addr = s.next_addr := by
        rw [hnode]
        exact set_active_addr h cfg _ _
      have hperm := map_assign_perm s.decorations (some v) node habs
      have hperm_ids : List.Perm (map_ids (map_assign s.decorations (some v) node))
          ((some v, s.next_addr) :: map_ids s.decorations) := by
        have := hperm.map (fun e : wayfire_view × glow_decoration_node_t => (e.1, e.2.addr))
        simpa [map_ids, haddr, set_active_addr] using this
      have hfresh : s.next_addr ∉ (map_ids s.decorations).map Prod.snd := by
        intro hin
        obtain ⟨e, he, heq⟩ := List.mem_map.mp hin
        have := h5 e he
        omega
      refine ⟨?_, ?_, ?_, ?_, ?_⟩
      · rw [(hperm.map Prod.fst).nodup_iff]
        exact List.nodup_cons.mpr ⟨habs, h1⟩
      · rw [(hperm_ids.map Prod.snd).nodup_iff]
        exact List.nodup_cons.mpr ⟨hfresh, h2⟩
      · simp only [List.map_cons]
        refine List.nodup_cons.mpr ⟨?_, h3⟩
        intro hin
        obtain ⟨e, he, heq⟩ := List.mem_map.mp hin
        obtain ⟨v', a⟩ := e
        simp only at heq
        subst heq
        have := (h4 v' a).mp he
        apply habs
        rw [← map_ids_fst]
        exact List.mem_map.mpr ⟨(some v', a), this, rfl⟩
      · intro v' a
        rw [hperm_ids.mem_iff, haddr]
        simp only [List.mem_cons, Prod.mk.injEq, Option.some.injEq, h4 v' a]
      · intro e he
        rw [hperm_ids.mem_iff] at he
        rcases List.mem_cons.mp he with heq | hold
        · subst heq
          simp
        · have := h5 e hold
          simp only
          omega

/-- The method `remove_decoration` keeps the state well formed. -/
theorem registry_inv_remove (view : wayfire_view) (s : glow_decoration_t)
    (hs : registry_inv s) : registry_inv (remove_decoration view s) := by
  have key : ∀ s1 : glow_decoration_t, registry_inv s1 →
      registry_inv (if s1.focused_view = view then { s1 with focused_view := none } else s1) := by
    intro s1 h1
    split_ifs
    · exact h1
    · exact h1
  unfold remove_decoration
  apply key
  cases hf : map_find s.decorations view with
  | none => exact hs
  | some node =>
    obtain ⟨h1, h2, h3, h4, h5⟩ := hs
    have hmem := map_find_some_mem _ _ _ hf
    have hsub := map_erase_sublist s.decorations view
    have hsub_ids : List.Sublist (map_ids (map_erase s.decorations view))
        (map_ids s.decorations) := hsub.map _
    refine ⟨?_, ?_, ?_, ?_, ?_⟩
    · exact List.Nodup.sublist (hsub.map _) h1
    · exact List.Nodup.sublist (hsub_ids.map _) h2
    · exact List.Nodup.sublist ((List.filter_sublist _).map _) h3
    · intro v' a
      simp only [List.mem_filter, bne_iff_ne, ne_eq, h4 v' a, mem_map_ids]
      constructor
      · rintro ⟨⟨n, hn, ha⟩, hne⟩
        refine ⟨n, (map_erase_mem _ h1 view _).mpr ⟨hn, ?_⟩, ha⟩
        intro hk
        simp only at hk
        rw [hk] at hn
        have := map_find_of_mem _ h1 _ _ hn
        rw [hf] at this
        cases this
        exact hne ha.symm
      · rintro ⟨n, hn, ha⟩
        obtain ⟨hn1, hn2⟩ := (map_erase_mem _ h1 view _).mp hn
        refine ⟨⟨n, hn1, ha⟩, ?_⟩
        intro hane
        have e1 : (some v', a) ∈ map_ids s.decorations := (mem_map_ids _ _ _).mpr ⟨n, hn1, ha⟩
        have e2 : (view, node.addr) ∈ map_ids s.decorations :=
          (mem_map_ids _ _ _).mpr ⟨node, hmem, rfl⟩
        have := List.inj_on_of_nodup_map h2 e1 e2 hane
        simp only [Prod.mk.injEq] at this
        exact hn2 this.1
    · intro e he
      exact h5 e (hsub_ids.subset he)

/-- The handler `on_focus_request` keeps the state well formed. -/
theorem registry_inv_focus (h : host_t) (cfg : glow_config_t) (view : wayfire_view)
    (s : glow_decoration_t) (hs : registry_inv s) :
    registry_inv (on_focus_request h cfg view s) := by
  obtain ⟨h1, h2, h3, h4, h5⟩ := hs
  have hid := update_focus_loop_ids h cfg view s.decorations
  have hk := congrArg (List.map Prod.fst) hid
  rw [map_ids_fst, map_ids_fst] at hk
  simp only [registry_inv, on_focus_request, update_focus, hid, hk]
  exact ⟨h1, h2, h3, h4, h5⟩

/-- The method `update_animation` keeps the state well formed. -/
theorem registry_inv_tick (h : host_t) (cfg : glow_config_t) (elapsed : ℚ)
    (s : glow_decoration_t) (hs : registry_inv s) :
    registry_inv (update_animation h cfg elapsed s) := by
  obtain ⟨h1, h2, h3, h4, h5⟩ := hs
  have hid := update_animation_loop_ids h cfg elapsed s.decorations
  have hk := congrArg (List.map Prod.fst) hid
  rw [map_ids_fst, map_ids_fst] at hk
  simp only [registry_inv, update_animation, hid, hk]
  exact ⟨h1, h2, h3, h4, h5⟩

/-- Every sequence of events keeps the state well formed. -/
theorem registry_inv_run (h : host_t) (cfg : glow_config_t) (calls : List registry_call)
    (s : glow_decoration_t) (hs : registry_inv s) : registry_inv (run_calls h cfg s calls) := by
  induction calls generalizing s with
  | nil => exact hs
  | cons c rest ih =>
    simp only [run_calls, List.foldl_cons]
    apply ih
    cases c with
    | add now view => exact registry_inv_add h cfg now view s hs
    | remove view => exact registry_inv_remove view s hs
    | focus view => exact registry_inv_focus h cfg view s hs
    | tick elapsed => exact registry_inv_tick h cfg elapsed s hs

/-- C5: after any sequence of `add_decoration` and `remove_decoration` calls
(focus requests and animation ticks may be interleaved) from the initial plugin
state, every view has at most one entry in the registry and at most one glow
node attached to its scene stack; `add_decoration` on a view that already has a
decoration, or on a toplevel that should not be decorated, returns the state
unchanged. -/
theorem registry_at_most_one (h : host_t) (cfg : glow_config_t) (calls : List registry_call)
    (v : Nat) (now : ℚ) (view : wayfire_view) :
    ((run_calls h cfg {} calls).decorations.filter (fun e => e.1 = some v)).length ≤ 1 ∧
    ((run_calls h cfg {} calls).scene.filter (fun e => e.1 = v)).length ≤ 1 ∧
    (∀ s : glow_decoration_t, map_count s.decorations view = true →
      add_decoration h cfg now view s = s) ∧
    (∀ s : glow_decoration_t, ∀ w : Nat, view = some w → h.toplevel_cast w = true →
      h.should_be_decorated w = false → add_decoration h cfg now view s = s) := by
  obtain ⟨h1, -, h3, -, -⟩ := registry_inv_run h cfg calls {} registry_inv_init
  refine ⟨filter_length_le_one Prod.fst (some v) _ h1, filter_length_le_one Prod.fst v _ h3,
    ?_, ?_⟩
  · intro s hc
    cases view with
    | none => rfl
    | some w => simp [add_decoration, hc]
  · intro s w hw ht hd
    subst hw
    simp [add_decoration, ht, hd]

/-- C5 at a concrete input: a second `add_decoration` for view 1 of the
example compositor changes nothing. -/
theorem registry_at_most_one_witness :
    add_decoration host_example {} 5 (some 1) (add_decoration host_example {} 0 (some 1) {}) =
      add_decoration host_example {} 0 (some 1) {} :=
  (registry_at_most_one host_example {} [] 1 5 (some 1)).2.2.1 _
    (by simp [add_decoration, map_count, map_find, map_assign, host_example])

/-- The map after `update_focus` holds, entry by entry, the node that
`set_active` returns. -/
theorem update_focus_loop_fst (h : host_t) (cfg : glow_config_t) (f : wayfire_view)
    (m : List (wayfire_view × glow_decoration_node_t)) :
    (update_focus_loop h cfg f m).1 =
      m.map (fun e => (e.1, (e.2.set_active h cfg (e.1 == f)).1)) := by
  induction m with
  | nil => rfl
  | cons e rest ih =>
    obtain ⟨view, node⟩ := e
    simp [update_focus_loop, ih]

/-- The method `set_active` leaves the flag equal to its argument. -/
theorem set_active_is_active (h : host_t) (cfg : glow_config_t) (n : glow_decoration_node_t)
    (a : Bool) : (n.set_active h cfg a).1.is_active = a := by
  unfold glow_decoration_node_t.set_active
  split_ifs with hne
  · rfl
  · simpa using hne

/-- C6: in a registry with unique keys (the `std::map` invariant), after a
focus request for any view A followed by a focus request for a registered view
B, the entries with `is_active == true` are exactly one, and its key is B. -/
theorem focus_exclusive (h : host_t) (cfg : glow_config_t) (s : glow_decoration_t)
    (hs : (s.decorations.map Prod.fst).Nodup) (A B : wayfire_view)
    (hB : map_count s.decorations B = true) :
    ((on_focus_request h cfg B (on_focus_request h cfg A s)).decorations.filter
      (fun e => e.2.is_active)).map Prod.fst = [B] := by
  have hkeys : (on_focus_request h cfg A s).decorations.map Prod.fst =
      s.decorations.map Prod.fst := by
    simp [on_focus_request, update_focus, update_focus_loop_fst, List.map_map,
      Function.comp_def]
  have hmemB : B ∈ s.decorations.map Prod.fst := by
    by_contra hnot
    cases hf : map_find s.decorations B with
    | none => simp [map_count, hf] at hB
    | some n => exact hnot (List.mem_map.mpr ⟨(B, n), map_find_some_mem _ _ _ hf, rfl⟩)
  generalize (on_focus_request h cfg A s) = s1 at hkeys
  rw [← hkeys] at hs hmemB
  simp only [on_focus_request, update_focus, update_focus_loop_fst, List.filter_map,
    List.map_map]
  have hfun : (Prod.fst ∘ fun e : wayfire_view × glow_decoration_node_t =>
      (e.1, (e.2.set_active h cfg (e.1 == B)).1)) = Prod.fst := by
    funext e; rfl
  have hpred : ((fun e : wayfire_view × glow_decoration_node_t => e.2.is_active) ∘
      fun e : wayfire_view × glow_decoration_node_t =>
        (e.1, (e.2.set_active h cfg (e.1 == B)).1)) =
      ((fun k : wayfire_view => decide (k = B)) ∘ Prod.fst) := by
    funext e
    simp only [Function.comp_apply, set_active_is_active]
    rw [Bool.eq_iff_iff]
    simp
  rw [hfun, hpred, ← List.filter_map, List.filter_eq, List.count_eq_one_of_mem hs hmemB]
  rfl

/-- C6 at a concrete input: views 1 and 2 decorated, focus requested for 1 and
then for 2: the only active entry is that of view 2. -/
theorem focus_exclusive_witness :
    ((on_focus_request host_example {} (some 2) (on_focus_request host_example {} (some 1)
        { decorations := [(some 1, { addr := 0, view := some 1 }),
                          (some 2, { addr := 1, view := some 2 })] })).decorations.filter
      (fun e => e.2.is_active)).map Prod.fst = [some 2] :=
  focus_exclusive host_example {} _ (by simp) (some 1) (some 2)
    (by simp [map_count, map_find])

/-! ### Draw execution -/

/-- C7 fails as stated: for the mapped view 1 with opacity 1, a compiled
program and a target of width 0, `render` issues a draw call, and the x
coordinates of its vertices come from a division by zero. -/
theorem render_zero_target_counterexample :
    (render host_example {} (fun _ => ⟨true, true, true⟩)
        { addr := 0, view := some 1, opacity := 1 }
        { inst := 0, target := ⟨⟨0, 0, 0, 1080⟩⟩, damage := [] }
        { g_glow_program := { compiled := true } }).gl.log =
      [.draw_arrays (render_draw {} { addr := 0, view := some 1, opacity := 1 }
        ⟨100, 100, 200, 150⟩ ⟨⟨0, 0, 0, 1080⟩⟩)] ∧
    (render_draw {} { addr := 0, view := some 1, opacity := 1 }
        ⟨100, 100, 200, 150⟩ ⟨⟨0, 0, 0, 1080⟩⟩).vertices.map Prod.fst =
      [none, none, none, none] := by
  have h10 : ¬ ((1 : ℚ) ≤ 0) := by norm_num
  constructor
  · simp [render, host_example, h10]
  · simp [render_draw, render_ndc, ndc_t.vertices, float_div]

/-- C7 as amended: `render` does not look at the size of the render target.
For a mapped view, a compiled program and a positive opacity it issues exactly
one draw call for every instruction; when the target has zero width the x
coordinate of every vertex comes from a division by zero, and when it has zero
height the y coordinate does. -/
theorem render_draws_any_target (h : host_t) (cfg : glow_config_t) (driver : Nat → gl_driver_t)
    (node : glow_decoration_node_t) (instr : render_instruction_t) (g : gpu_t) (v : Nat)
    (hv : node.view = some v) (hm : h.is_mapped v = true)
    (hc : g.g_glow_program.compiled = true) (ho : 0 < node.opacity) :
    (render h cfg driver node instr g).gl.log =
      g.gl.log ++ [.draw_arrays (render_draw cfg node (h.get_bounding_box v) instr.target)] ∧
    draw_calls (render h cfg driver node instr g).gl.log = draw_calls g.gl.log + 1 ∧
    (instr.target.geometry.width = 0 →
      ∀ p ∈ (render_draw cfg node (h.get_bounding_box v) instr.target).vertices, p.1 = none) ∧
    (instr.target.geometry.height = 0 →
      ∀ p ∈ (render_draw cfg node (h.get_bounding_box v) instr.target).vertices, p.2 = none) := by
  have hlog : (render h cfg driver node instr g).gl.log =
      g.gl.log ++ [.draw_arrays (render_draw cfg node (h.get_bounding_box v) instr.target)] := by
    simp [render, hv, hm, hc, not_le.mpr ho]
  refine ⟨hlog, ?_, ?_, ?_⟩
  · rw [hlog]
    simp [draw_calls, List.filter_append]
  · intro hw p hp
    simp only [render_draw, render_ndc, ndc_t.vertices, float_div, hw, Int.cast_zero,
      if_true, Option.map_none', List.mem_cons, List.mem_singleton, List.not_mem_nil,
      or_false] at hp
    rcases hp with rfl | rfl | rfl | rfl <;> rfl
  · intro hh p hp
    simp only [render_draw, render_ndc, ndc_t.vertices, float_div, hh, Int.cast_zero,
      if_true, Option.map_none', List.mem_cons, List.mem_singleton, List.not_mem_nil,
      or_false] at hp
    rcases hp with rfl | rfl | rfl | rfl <;> rfl

/-- C7 as amended, at a concrete input: view 1, opacity 1, compiled program,
target of height 0: one draw call is issued. -/
theorem render_draws_any_target_witness :
    draw_calls (render host_example {} (fun _ => ⟨true, true, true⟩)
        { addr := 0, view := some 1, opacity := 1 }
        { inst := 0, target := ⟨⟨0, 0, 1920, 0⟩⟩, damage := [] }
        { g_glow_program := { compiled := true } }).gl.log = 1 :=
  (render_draws_any_target host_example {} (fun _ => ⟨true, true, true⟩)
    { addr := 0, view := some 1, opacity := 1 }
    { inst := 0, target := ⟨⟨0, 0, 1920, 0⟩⟩, damage := [] }
    { g_glow_program := { compiled := true } } 1 rfl rfl rfl (by norm_num)).2.1

/-! ### The rounded-box distance -/

/-- C8 fails as stated: at the centre of a 4 by 2 box with corner radius 0 the
shader's `sdRoundedBox` is 1 below the specification's formula, whatever
`length` is; so the two are not equal at every input. -/
theorem sdRoundedBox_counterexample :
    (∀ length : ℚ × ℚ → ℚ,
      sdRoundedBox length (0, 0) (2, 1) 0 = spec_sdRoundedBox length (0, 0) (2, 1) 0 - 1) ∧
    ¬ ∀ (length : ℚ × ℚ → ℚ) (p b : ℚ × ℚ) (r : ℚ),
      sdRoundedBox length p b r = spec_sdRoundedBox length p b r := by
  have h1 : ∀ length : ℚ × ℚ → ℚ,
      sdRoundedBox length (0, 0) (2, 1) 0 = spec_sdRoundedBox length (0, 0) (2, 1) 0 - 1 := by
    intro length
    simp only [sdRoundedBox, spec_sdRoundedBox]
    norm_num
    ring
  refine ⟨h1, fun hall => ?_⟩
  have h2 := h1 (fun _ => 0)
  rw [hall] at h2
  linarith

/-- C8 as amended: for every point p, half-size b and corner radius r,
`sdRoundedBox(p, b, r)` is `min(max(q.x, q.y), 0) + length(max(q, 0)) - r`
with `q = |p| - b + r`; it never exceeds the specification's
`max(min(q.x, q.y), 0) + length(max(q, 0)) - r` and equals it exactly when
`max(q.x, q.y) ≥ 0` and `min(q.x, q.y) ≤ 0`. -/
theorem sdRoundedBox_amended (length : ℚ × ℚ → ℚ) (p b : ℚ × ℚ) (r : ℚ) :
    sdRoundedBox length p b r =
      min (max (|p.1| - b.1 + r) (|p.2| - b.2 + r)) 0 +
        length (max (|p.1| - b.1 + r) 0, max (|p.2| - b.2 + r) 0) - r ∧
    sdRoundedBox length p b r ≤ spec_sdRoundedBox length p b r ∧
    (sdRoundedBox length p b r = spec_sdRoundedBox length p b r ↔
      0 ≤ max (|p.1| - b.1 + r) (|p.2| - b.2 + r) ∧
      min (|p.1| - b.1 + r) (|p.2| - b.2 + r) ≤ 0) := by
  simp only [sdRoundedBox, spec_sdRoundedBox]
  generalize |p.1| - b.1 + r = q1
  generalize |p.2| - b.2 + r = q2
  generalize length (max q1 0, max q2 0) = len
  have ha : min (max q1 q2) 0 ≤ 0 := min_le_right _ _
  have hb : 0 ≤ max (min q1 q2) 0 := le_max_right _ _
  refine ⟨trivial, by linarith, ?_⟩
  constructor
  · intro heq
    have h0 : min (max q1 q2) 0 = max (min q1 q2) 0 := by linarith
    have h1 : min (max q1 q2) 0 = 0 := le_antisymm ha (h0 ▸ hb)
    have h2 : max (min q1 q2) 0 = 0 := by rw [← h0, h1]
    exact ⟨by simpa using h1, by simpa using h2⟩
  · rintro ⟨h1, h2⟩
    rw [min_eq_right h1, max_eq_right h2]

/-! ### Removal -/

/-- Erasing a key does not change the lookup of another key. -/
theorem map_find_erase_ne (m : List (wayfire_view × glow_decoration_node_t))
    (k view : wayfire_view) (hne : k ≠ view) :
    map_find (map_erase m view) k = map_find m k := by
  induction m with
  | nil => rfl
  | cons e rest ih =>
    obtain ⟨k', n'⟩ := e
    unfold map_erase
    split_ifs with hk
    · subst hk
      conv_rhs => unfold map_find
      rw [if_neg (fun h => hne h.symm)]
    · unfold map_find
      rw [ih]

/-- With unique keys, an erased key is no longer found. -/
theorem map_find_erase_self (m : List (wayfire_view × glow_decoration_node_t))
    (hn : (m.map Prod.fst).Nodup) (view : wayfire_view) :
    map_find (map_erase m view) view = none := by
  cases hf : map_find (map_erase m view) view with
  | none => rfl
  | some n =>
    have := (map_erase_mem m hn view _).mp (map_find_some_mem _ _ _ hf)
    exact absurd rfl this.2

/-- Erasing an absent key leaves the map unchanged. -/
theorem map_erase_absent (m : List (wayfire_view × glow_decoration_node_t))
    (view : wayfire_view) (hf : map_find m view = none) : map_erase m view = m := by
  induction m with
  | nil => rfl
  | cons e rest ih =>
    obtain ⟨k', n'⟩ := e
    unfold map_find at hf
    split_ifs at hf with hk
    unfold map_erase
    rw [if_neg hk, ih hf]

/-- C9 fails as stated: after a focus request for view 1, which has no
decoration, `remove_decoration` for view 1 changes the state: it clears the
focus reference. -/
theorem remove_decoration_counterexample :
    map_count (on_focus_request host_example {} (some 1) {}).decorations (some 1) = false ∧
    (on_focus_request host_example {} (some 1) {}).focused_view = some 1 ∧
    (remove_decoration (some 1) (on_focus_request host_example {} (some 1) {})).focused_view
      = none ∧
    remove_decoration (some 1) (on_focus_request host_example {} (some 1) {}) ≠
      on_focus_request host_example {} (some 1) {} := by
  refine ⟨rfl, rfl, rfl, ?_⟩
  intro heq
  have := congrArg glow_decoration_t.focused_view heq
  exact absurd this (by decide)

/-- C9 as amended: in a registry with unique keys, `remove_decoration`
leaves every other key's entry unchanged and leaves no entry for the removed
view; when the view had no decoration the map and the scene are unchanged; the
focus reference is cleared exactly when it was that view (with or without a
decoration) and is otherwise unchanged; and when the view had no decoration and
was not the focused one the whole state is unchanged. -/
theorem remove_decoration_amended (s : glow_decoration_t)
    (hs : (s.decorations.map Prod.fst).Nodup) (view : wayfire_view) :
    (∀ k, map_find (remove_decoration view s).decorations k =
      if k = view then none else map_find s.decorations k) ∧
    (remove_decoration view s).focused_view =
      (if s.focused_view = view then none else s.focused_view) ∧
    (map_count s.decorations view = false →
      (remove_decoration view s).decorations = s.decorations ∧
      (remove_decoration view s).scene = s.scene) ∧
    (map_count s.decorations view = false → s.focused_view ≠ view →
      remove_decoration view s = s) := by
  have hdec : (remove_decoration view s).decorations = map_erase s.decorations view := by
    unfold remove_decoration
    cases hf : map_find s.decorations view with
    | none =>
      simp only [map_erase_absent _ _ hf]
      split_ifs <;> rfl
    | some node =>
      simp only
      split_ifs <;> rfl
  have hfoc : (remove_decoration view s).focused_view =
      (if s.focused_view = view then none else s.focused_view) := by
    unfold remove_decoration
    cases hf : map_find s.decorations view <;> simp only <;> split_ifs <;> rfl
  refine ⟨?_, hfoc, ?_, ?_⟩
  · intro k
    rw [hdec]
    split_ifs with hk
    · subst hk
      exact map_find_erase_self _ hs _
    · exact map_find_erase_ne _ _ _ hk
  · intro hc
    have hf : map_find s.decorations view = none := by
      simpa [map_count] using hc
    refine ⟨by rw [hdec, map_erase_absent _ _ hf], ?_⟩
    unfold remove_decoration
    simp only [hf]
    split_ifs <;> rfl
  · intro hc hne
    have hf : map_find s.decorations view = none := by
      simpa [map_count] using hc
    unfold remove_decoration
    simp only [hf]
    rw [if_neg hne]

/-- C9 as amended, at a concrete input: views 1 and 2 decorated and view 2
focused; removing view 1 leaves the entry of view 2 and the focus reference
unchanged and leaves no entry for view 1. -/
theorem remove_decoration_amended_witness :
    map_find (remove_decoration (some 1)
        { decorations := [(some 1, { addr := 0, view := some 1 }),
                          (some 2, { addr := 1, view := some 2, is_active := true })],
          focused_view := some 2 }).decorations (some 2) =
      some { addr := 1, view := some 2, is_active := true } ∧
    map_find (remove_decoration (some 1)
        { decorations := [(some 1, { addr := 0, view := some 1 }),
                          (some 2, { addr := 1, view := some 2, is_active := true })],
          focused_view := some 2 }).decorations (some 1) = none ∧
    (remove_decoration (some 1)
        { decorations := [(some 1, { addr := 0, view := some 1 }),
                          (some 2, { addr := 1, view := some 2, is_active := true })],
          focused_view := some 2 }).focused_view = some 2 := by
  have w := remove_decoration_amended
    { decorations := [(some 1, { addr := 0, view := some 1 }),
                      (some 2, { addr := 1, view := some 2, is_active := true })],
      focused_view := some 2 } (by simp) (some 1)
  refine ⟨?_, ?_, ?_⟩
  · rw [w.1 (some 2)]
    simp [map_find]
  · rw [w.1 (some 1)]
    simp
  · rw [w.2.1]
    simp

/-! ### Shader compilation -/

/-- One `render` call for a mapped view while the program is not compiled and
the GL implementation rejects the shaders: the program stays uncompiled, one
more run of the body of `compile_shaders` and one more failure are recorded,
and nothing is drawn. -/
theorem render_failed_compile (h : host_t) (cfg : glow_config_t) (driver : Nat → gl_driver_t)
    (node : glow_decoration_node_t) (instr : render_instruction_t) (g : gpu_t) (v : Nat)
    (hv : node.view = some v) (hm : h.is_mapped v = true)
    (hg : g.g_glow_program.compiled = false) (hd : (driver g.gl.attempts).ok = false) :
    (render h cfg driver node instr g).g_glow_program.compiled = false ∧
    (render h cfg driver node instr g).gl.attempts = g.gl.attempts + 1 ∧
    failed_compiles (render h cfg driver node instr g).gl.log = failed_compiles g.gl.log + 1 ∧
    draw_calls (render h cfg driver node instr g).gl.log = draw_calls g.gl.log := by
  rcases hdr : driver g.gl.attempts with ⟨a, b, c⟩
  rw [hdr] at hd
  cases a <;> cases b <;> cases c <;>
    simp [gl_driver_t.ok] at hd <;>
    simp [render, compile_shaders, hv, hm, hg, hdr, failed_compiles, draw_calls,
      List.filter_append]

/-- C10 fails as stated: with a GL implementation that rejects the vertex
shader every time, two `render` calls for the mapped view 1 run the body of
`compile_shaders` twice and record two failed compilations. -/
theorem compile_retry_counterexample :
    (render_all host_example {} (fun _ => ⟨false, true, true⟩)
        [({ addr := 0, view := some 1, opacity := 1 }, ⟨0, ⟨⟨0, 0, 1920, 1080⟩⟩, []⟩),
         ({ addr := 0, view := some 1, opacity := 1 }, ⟨0, ⟨⟨0, 0, 1920, 1080⟩⟩, []⟩)]
        {}).gl.attempts = 2 ∧
    failed_compiles (render_all host_example {} (fun _ => ⟨false, true, true⟩)
        [({ addr := 0, view := some 1, opacity := 1 }, ⟨0, ⟨⟨0, 0, 1920, 1080⟩⟩, []⟩),
         ({ addr := 0, view := some 1, opacity := 1 }, ⟨0, ⟨⟨0, 0, 1920, 1080⟩⟩, []⟩)]
        {}).gl.log = 2 := by
  constructor <;>
    simp [render_all, render, compile_shaders, host_example, failed_compiles]

/-- C10 as amended: a failed `compile_shaders` leaves `compiled` false, so
the failure is not sticky: while the GL implementation keeps rejecting the
shaders, every `render` call for a mapped view runs the compilation again,
fails again and skips the draw (n calls give n failed attempts); and the first
call whose compilation succeeds marks the program compiled and, for a positive
opacity, draws. -/
theorem render_retries_compile (h : host_t) (cfg : glow_config_t) (driver : Nat → gl_driver_t)
    (calls : List (glow_decoration_node_t × render_instruction_t)) (g : gpu_t)
    (hmapped : ∀ c ∈ calls, ∃ v, c.1.view = some v ∧ h.is_mapped v = true)
    (hfail : ∀ n, g.gl.attempts ≤ n → n < g.gl.attempts + calls.length →
      (driver n).ok = false)
    (hg : g.g_glow_program.compiled = false) :
    (render_all h cfg driver calls g).g_glow_program.compiled = false ∧
    (render_all h cfg driver calls g).gl.attempts = g.gl.attempts + calls.length ∧
    failed_compiles (render_all h cfg driver calls g).gl.log =
      failed_compiles g.gl.log + calls.length ∧
    draw_calls (render_all h cfg driver calls g).gl.log = draw_calls g.gl.log ∧
    (∀ (node : glow_decoration_node_t) (instr : render_instruction_t) (v : Nat),
      node.view = some v → h.is_mapped v = true → 0 < node.opacity →
      (driver (g.gl.attempts + calls.length)).ok = true →
      (render h cfg driver node instr
        (render_all h cfg driver calls g)).g_glow_program.compiled = true ∧
      draw_calls (render h cfg driver node instr (render_all h cfg driver calls g)).gl.log =
        draw_calls g.gl.log + 1) := by
  have main : (render_all h cfg driver calls g).g_glow_program.compiled = false ∧
      (render_all h cfg driver calls g).gl.attempts = g.gl.attempts + calls.length ∧
      failed_compiles (render_all h cfg driver calls g).gl.log =
        failed_compiles g.gl.log + calls.length ∧
      draw_calls (render_all h cfg driver calls g).gl.log = draw_calls g.gl.log := by
    induction calls generalizing g with
    | nil => exact ⟨hg, rfl, rfl, rfl⟩
    | cons c rest ih =>
      obtain ⟨v, hv, hm⟩ := hmapped c (List.mem_cons_self _ _)
      have hd : (driver g.gl.attempts).ok = false :=
        hfail _ (le_refl _) (by simp)
      obtain ⟨s1, s2, s3, s4⟩ := render_failed_compile h cfg driver c.1 c.2 g v hv hm hg hd
      have := ih (render h cfg driver c.1 c.2 g)
        (fun c' hc' => hmapped c' (List.mem_cons_of_mem _ hc'))
        (fun n h1 h2 => hfail n (by omega) (by simp only [List.length_cons]; omega))
        s1
      simp only [render_all, List.foldl_cons] at this ⊢
      rw [s2, s3, s4] at this
      simp only [List.length_cons]
      refine ⟨this.1, ?_, ?_, this.2.2.2⟩
      · rw [this.2.1]; omega
      · rw [this.2.2.1]; omega
  refine ⟨main.1, main.2.1, main.2.2.1, main.2.2.2, ?_⟩
  intro node instr v hv hm ho hok
  obtain ⟨m1, m2, -, m4⟩ := main
  rcases hdr : driver (g.gl.attempts + calls.length) with ⟨a, b, c⟩
  rw [hdr] at hok
  simp only [gl_driver_t.ok, Bool.and_eq_true] at hok
  obtain ⟨⟨rfl, rfl⟩, rfl⟩ := hok
  rw [← m4]
  constructor <;>
    simp [render, compile_shaders, hv, hm, m1, m2, hdr, not_le.mpr ho, draw_calls,
      List.filter_append]

/-- C10 as amended, at a concrete input: three `render` calls for the mapped
view 1 against a GL implementation that always fails to link record three
failed attempts and no draw. -/
theorem render_retries_compile_witness :
    (render_all host_example {} (fun _ => ⟨true, true, false⟩)
        [({ addr := 0, view := some 1, opacity := 1 }, ⟨0, ⟨⟨0, 0, 1920, 1080⟩⟩, []⟩),
         ({ addr := 0, view := some 1, opacity := 1 }, ⟨0, ⟨⟨0, 0, 1920, 1080⟩⟩, []⟩),
         ({ addr := 0, view := some 1, opacity := 1 }, ⟨0, ⟨⟨0, 0, 1920, 1080⟩⟩, []⟩)]
        {}).gl.attempts = 3 ∧
    failed_compiles (render_all host_example {} (fun _ => ⟨true, true, false⟩)
        [({ addr := 0, view := some 1, opacity := 1 }, ⟨0, ⟨⟨0, 0, 1920, 1080⟩⟩, []⟩),
         ({ addr := 0, view := some 1, opacity := 1 }, ⟨0, ⟨⟨0, 0, 1920, 1080⟩⟩, []⟩),
         ({ addr := 0, view := some 1, opacity := 1 }, ⟨0, ⟨⟨0, 0, 1920, 1080⟩⟩, []⟩)]
        {}).gl.log = 3 ∧
    draw_calls (render_all host_example {} (fun _ => ⟨true, true, false⟩)
        [({ addr := 0, view := some 1, opacity := 1 }, ⟨0, ⟨⟨0, 0, 1920, 1080⟩⟩, []⟩),
         ({ addr := 0, view := some 1, opacity := 1 }, ⟨0, ⟨⟨0, 0, 1920, 1080⟩⟩, []⟩),
         ({ addr := 0, view := some 1, opacity := 1 }, ⟨0, ⟨⟨0, 0, 1920, 1080⟩⟩, []⟩)]
        {}).gl.log = 0 := by
  have w := render_retries_compile host_example {} (fun _ => ⟨true, true, false⟩)
    [({ addr := 0, view := some 1, opacity := 1 }, ⟨0, ⟨⟨0, 0, 1920, 1080⟩⟩, []⟩),
     ({ addr := 0, view := some 1, opacity := 1 }, ⟨0, ⟨⟨0, 0, 1920, 1080⟩⟩, []⟩),
     ({ addr := 0, view := some 1, opacity := 1 }, ⟨0, ⟨⟨0, 0, 1920, 1080⟩⟩, []⟩)]
    {}
    (by
      intro c hc
      refine ⟨1, ?_, rfl⟩
      simp only [List.mem_cons, List.mem_singleton, List.not_mem_nil, or_false] at hc
      rcases hc with rfl | rfl | rfl <;> rfl)
    (fun _ _ _ => rfl) rfl
  exact ⟨w.2.1, w.2.2.1, w.2.2.2.1⟩

/-! ### Config reload -/

/-- C11: for every option set, every previous `g_config` and every plugin
state, running `update_config` twice with the same option values yields the
same `g_config` as running it once (and that value does not depend on the
previous one); the uniforms and quad of the next draw of any decoration, and
the whole effect of `render`, are identical; `update_config` leaves the
decoration map, the focus reference and the scene as they were, and only adds
damage. -/
theorem update_config_idempotent (h : host_t) (o : options_t) (g_config : glow_config_t)
    (s : glow_decoration_t) :
    (update_config h o (update_config h o g_config s).1 (update_config h o g_config s).2).1 =
      (update_config h o g_config s).1 ∧
    (∀ g_config', (update_config h o g_config' s).1 = (update_config h o g_config s).1) ∧
    (∀ node view_bbox target,
      render_draw (update_config h o (update_config h o g_config s).1
          (update_config h o g_config s).2).1 node view_bbox target =
        render_draw (update_config h o g_config s).1 node view_bbox target) ∧
    (∀ driver node instr g,
      render h (update_config h o (update_config h o g_config s).1
          (update_config h o g_config s).2).1 driver node instr g =
        render h (update_config h o g_config s).1 driver node instr g) ∧
    (update_config h o g_config s).2.decorations = s.decorations ∧
    (update_config h o (update_config h o g_config s).1
      (update_config h o g_config s).2).2.decorations = s.decorations ∧
    (update_config h o g_config s).2.focused_view = s.focused_view ∧
    (update_config h o g_config s).2.scene = s.scene ∧
    (update_config h o (update_config h o g_config s).1
        (update_config h o g_config s).2).2.damage =
      (s.decorations.map (fun e => e.2.get_bounding_box h
          (update_config h o g_config s).1)).reverse ++
        (update_config h o g_config s).2.damage := by
  have hcfg : ∀ g1 g2 : glow_config_t, assign_config g1 o = assign_config g2 o := by
    intro g1 g2
    rfl
  have h1 : (update_config h o (update_config h o g_config s).1
      (update_config h o g_config s).2).1 = (update_config h o g_config s).1 :=
    hcfg (update_config h o g_config s).1 g_config
  refine ⟨h1, fun g' => hcfg g' g_config, ?_, ?_, rfl, rfl, rfl, rfl, ?_⟩
  · intro node view_bbox target
    rw [h1]
  · intro driver node instr g
    rw [h1]
  · rfl

/-! ### Shader distance bands -/

/-- C12: for every pixel, with border width ≥ 0 and glow radius > 0: when the
signed distance is in (-borderWidth, 0] the glow factor is exactly 1, the bloom
multiplier is 1.2 and the pixel is written; when the distance is
≤ -borderWidth or ≥ glowRadius the pixel is discarded; and every written pixel
has glow factor > 0.001 and the premultiplied colour
(rgb * bloom * alpha, alpha) with alpha = glowColor.a * glowFactor. -/
theorem frag_main_bands (gl : glsl_t) (u : draw_t) (uv : ℚ × ℚ)
    (hbw : 0 ≤ u.u_border_width) (hgr : 0 < u.u_glow_radius) :
    (-u.u_border_width < frag_dist gl.length u.u_border_box u.u_corner_radius uv ∧
        frag_dist gl.length u.u_border_box u.u_corner_radius uv ≤ 0 →
      frag_glowFactor gl u uv = 1 ∧ frag_bloom gl u uv = 6 / 5 ∧
      frag_main gl u uv = some
        { r := (frag_glowColor gl u uv).r * (6 / 5) * (frag_glowColor gl u uv).a
          g := (frag_glowColor gl u uv).g * (6 / 5) * (frag_glowColor gl u uv).a
          b := (frag_glowColor gl u uv).b * (6 / 5) * (frag_glowColor gl u uv).a
          a := (frag_glowColor gl u uv).a }) ∧
    (frag_dist gl.length u.u_border_box u.u_corner_radius uv ≤ -u.u_border_width ∨
        u.u_glow_radius ≤ frag_dist gl.length u.u_border_box u.u_corner_radius uv →
      frag_main gl u uv = none) ∧
    (∀ c, frag_main gl u uv = some c →
      1 / 1000 < frag_glowFactor gl u uv ∧
      c = { r := (frag_glowColor gl u uv).r * frag_bloom gl u uv *
                   ((frag_glowColor gl u uv).a * frag_glowFactor gl u uv)
            g := (frag_glowColor gl u uv).g * frag_bloom gl u uv *
                   ((frag_glowColor gl u uv).a * frag_glowFactor gl u uv)
            b := (frag_glowColor gl u uv).b * frag_bloom gl u uv *
                   ((frag_glowColor gl u uv).a * frag_glowFactor gl u uv)
            a := (frag_glowColor gl u uv).a * frag_glowFactor gl u uv }) := by
  have _ := hbw
  refine ⟨?_, ?_, ?_⟩
  · rintro ⟨h1, h2⟩
    have hf : frag_glowFactor gl u uv = 1 := by
      simp only [frag_glowFactor]
      rw [if_pos ⟨h1, lt_of_le_of_lt h2 hgr⟩, if_pos h2]
    have hb : frag_bloom gl u uv = 6 / 5 := by
      simp only [frag_bloom]
      rw [if_pos ⟨h2, h1⟩]
    refine ⟨hf, hb, ?_⟩
    simp only [frag_main, hf, hb]
    rw [if_pos (by norm_num)]
    simp
  · intro hout
    have hf : frag_glowFactor gl u uv = 0 := by
      simp only [frag_glowFactor]
      rw [if_neg]
      rintro ⟨h1, h2⟩
      rcases hout with h | h <;> linarith
    simp only [frag_main, hf]
    rw [if_neg (by norm_num)]
  · intro c hc
    simp only [frag_main] at hc
    split_ifs at hc with hgt
    refine ⟨hgt, ?_⟩
    cases hc
    rfl

/-- C12 at a concrete input: the pixel centred at (100.5, 175.5), half a
pixel inside the left edge of the box (100, 100, 200, 150) with border width 2
and glow radius 20, has distance -1/2, glow factor 1 and bloom 1.2, and is
written as (0.36, 0.36, 0.36, 1). -/
theorem frag_main_bands_witness :
    frag_dist glsl_example.length draw_example.u_border_box draw_example.u_corner_radius
      (201 / 2, 351 / 2) = -1 / 2 ∧
    frag_glowFactor glsl_example draw_example (201 / 2, 351 / 2) = 1 ∧
    frag_bloom glsl_example draw_example (201 / 2, 351 / 2) = 6 / 5 ∧
    frag_main glsl_example draw_example (201 / 2, 351 / 2) =
      some { r := 9 / 25, g := 9 / 25, b := 9 / 25, a := 1 } := by
  have hd : frag_dist glsl_example.length draw_example.u_border_box
      draw_example.u_corner_radius (201 / 2, 351 / 2) = -1 / 2 := by
    simp only [frag_dist, sdRoundedBox, glsl_example, draw_example]
    norm_num [abs_of_neg, abs_of_pos]
  have w := (frag_main_bands glsl_example draw_example (201 / 2, 351 / 2)
    (by norm_num [draw_example]) (by norm_num [draw_example])).1
    (by rw [hd]; norm_num [draw_example])
  refine ⟨hd, w.1, w.2.1, ?_⟩
  rw [w.2.2]
  simp only [frag_glowColor, draw_example]
  norm_num

/-! ### The quad and the reported bounding box -/

/-- Truncation of a non-negative number is its floor. -/
theorem static_cast_int_of_nonneg (q : ℚ) (k : ℤ) (h0 : 0 ≤ q) (h1 : (k : ℚ) ≤ q)
    (h2 : q < k + 1) : static_cast_int q = k := by
  unfold static_cast_int
  rw [if_pos h0, Int.floor_eq_iff]
  exact ⟨h1, h2⟩

/-- C13: the code breaks the claim.  For view 1 of the example compositor,
box (100, 100, 200, 150), with `glow_radius = 2.75` and `border_width = 0.125`,
the quad of `render` is (97, 97, 205, 155) while `get_bounding_box` returns
(98, 98, 204, 154): the quad's left column and top row lie outside the
reported box. -/
theorem quad_outside_bounding_box :
    render_geom (host_example.get_bounding_box 1) (11 / 4) = ⟨97, 97, 205, 155⟩ ∧
    glow_decoration_node_t.get_bounding_box host_example
        { glow_radius := 11 / 4, border_width := 1 / 8 } { addr := 0, view := some 1 } =
      ⟨98, 98, 204, 154⟩ ∧
    (render_draw { glow_radius := 11 / 4, border_width := 1 / 8 } { addr := 0, view := some 1 }
        (host_example.get_bounding_box 1) ⟨⟨0, 0, 1920, 1080⟩⟩).vertices =
      (render_ndc ⟨97, 97, 205, 155⟩ ⟨0, 0, 1920, 1080⟩).vertices ∧
    ¬ (render_geom (host_example.get_bounding_box 1) (11 / 4)).inside
      (glow_decoration_node_t.get_bounding_box host_example
        { glow_radius := 11 / 4, border_width := 1 / 8 } { addr := 0, view := some 1 }) := by
  have e1 : static_cast_int ((100 : ℚ) - 11 / 4) = 97 :=
    static_cast_int_of_nonneg _ 97 (by norm_num) (by norm_num) (by norm_num)
  have e2 : static_cast_int ((200 : ℚ) + 2 * (11 / 4)) = 205 :=
    static_cast_int_of_nonneg _ 205 (by norm_num) (by norm_num) (by norm_num)
  have e3 : static_cast_int ((150 : ℚ) + 2 * (11 / 4)) = 155 :=
    static_cast_int_of_nonneg _ 155 (by norm_num) (by norm_num) (by norm_num)
  have e4 : static_cast_int ((11 : ℚ) / 4 + 1 / 8) = 2 :=
    static_cast_int_of_nonneg _ 2 (by norm_num) (by norm_num) (by norm_num)
  have hg : render_geom (host_example.get_bounding_box 1) (11 / 4) = ⟨97, 97, 205, 155⟩ := by
    simp only [render_geom, host_example, if_true, Int.cast_ofNat, e1, e2, e3]
  have hb : glow_decoration_node_t.get_bounding_box host_example
      { glow_radius := 11 / 4, border_width := 1 / 8 } { addr := 0, view := some 1 } =
      ⟨98, 98, 204, 154⟩ := by
    simp [glow_decoration_node_t.get_bounding_box, host_example]
    rw [show ((11 : ℚ) / 4 + 8⁻¹) = 11 / 4 + 1 / 8 by norm_num, e4]
    norm_num
  refine ⟨hg, hb, ?_, ?_⟩
  · simp only [render_draw, hg]
  · rw [hg, hb]
    decide

/-- The quad of `render` does lie inside the reported bounding box when the
glow radius is an integer or the border width is at least 1, for a box of
non-negative size:
then the truncated `glow_radius + border_width` is at least the glow radius
rounded up. -/
theorem quad_inside_bounding_box (h : host_t) (cfg : glow_config_t)
    (node : glow_decoration_node_t) (v : Nat) (hv : node.view = some v)
    (hm : h.is_mapped v = true)
    (hr : 0 ≤ cfg.glow_radius) (hb : 0 ≤ cfg.border_width)
    (hw : 0 ≤ (h.get_bounding_box v).width) (hh : 0 ≤ (h.get_bounding_box v).height)
    (hc : (∃ k : ℤ, cfg.glow_radius = k) ∨ 1 ≤ cfg.border_width) :
    (render_geom (h.get_bounding_box v) cfg.glow_radius).inside
      (node.get_bounding_box h cfg) := by
  have hbox : node.get_bounding_box h cfg =
      ⟨(h.get_bounding_box v).x - static_cast_int (cfg.glow_radius + cfg.border_width),
       (h.get_bounding_box v).y - static_cast_int (cfg.glow_radius + cfg.border_width),
       (h.get_bounding_box v).width + 2 * static_cast_int (cfg.glow_radius + cfg.border_width),
       (h.get_bounding_box v).height +
         2 * static_cast_int (cfg.glow_radius + cfg.border_width)⟩ := by
    simp [glow_decoration_node_t.get_bounding_box, hv, hm]
  rw [hbox]
  generalize h.get_bounding_box v = B at hw hh ⊢
  obtain ⟨x, y, w, ht⟩ := B
  simp only at hw hh
  set r := cfg.glow_radius with hrdef
  set e := static_cast_int (r + cfg.border_width) with hedef
  -- the truncated expansion is within one below the exact sum
  have he1 : r + cfg.border_width - 1 < (e : ℚ) := by
    have := abs_lt.mp (static_cast_int_sub_lt (r + cfg.border_width))
    linarith [this.1]
  have hfloor : ∀ q : ℚ, 0 ≤ q → (static_cast_int q : ℚ) ≤ q := by
    intro q hq
    unfold static_cast_int
    rw [if_pos hq]
    exact Int.floor_le q
  have hw' : (0 : ℚ) ≤ (w : ℚ) := by exact_mod_cast hw
  have hh' : (0 : ℚ) ≤ (ht : ℚ) := by exact_mod_cast hh
  have hwq := hfloor ((w : ℚ) + 2 * r) (by linarith)
  have hhq := hfloor ((ht : ℚ) + 2 * r) (by linarith)
  have hx := abs_lt.mp (static_cast_int_sub_lt ((x : ℚ) - r))
  have hy := abs_lt.mp (static_cast_int_sub_lt ((y : ℚ) - r))
  simp only [geometry_t.inside, render_geom]
  rcases hc with ⟨k, hk⟩ | hone
  · -- integer glow radius: the quad is exact
    have hke : (k : ℚ) ≤ (e : ℚ) := by
      have he0 : (0 : ℚ) ≤ r + cfg.border_width := by linarith
      have : ((k : ℤ) : ℚ) ≤ r + cfg.border_width := by linarith
      have hk_le : k ≤ ⌊r + cfg.border_width⌋ := Int.le_floor.mpr this
      have : e = ⌊r + cfg.border_width⌋ := by
        rw [hedef]; unfold static_cast_int; rw [if_pos he0]
      rw [this]
      exact_mod_cast hk_le
    have hke' : k ≤ e := by exact_mod_cast hke
    have e1 : ((x : ℚ) - r) = ((x - k : ℤ) : ℚ) := by rw [hk]; push_cast; ring
    have e2 : ((y : ℚ) - r) = ((y - k : ℤ) : ℚ) := by rw [hk]; push_cast; ring
    have e3 : ((w : ℚ) + 2 * r) = ((w + 2 * k : ℤ) : ℚ) := by rw [hk]; push_cast; ring
    have e4 : ((ht : ℚ) + 2 * r) = ((ht + 2 * k : ℤ) : ℚ) := by rw [hk]; push_cast; ring
    rw [e1, e2, e3, e4]
    simp only [static_cast_int_intCast]
    refine ⟨?_, ?_, ?_, ?_⟩ <;> omega
  · -- border width at least 1: the expansion exceeds the glow radius
    have her : r < (e : ℚ) := by linarith
    refine ⟨?_, ?_, ?_, ?_⟩
    · have : ((x - e : ℤ) : ℚ) < (static_cast_int ((x : ℚ) - r) : ℚ) + 1 := by
        push_cast; linarith [hx.1]
      have : x - e < static_cast_int ((x : ℚ) - r) + 1 := by exact_mod_cast this
      omega
    · have : ((y - e : ℤ) : ℚ) < (static_cast_int ((y : ℚ) - r) : ℚ) + 1 := by
        push_cast; linarith [hy.1]
      have : y - e < static_cast_int ((y : ℚ) - r) + 1 := by exact_mod_cast this
      omega
    · have : ((static_cast_int ((x : ℚ) - r) + static_cast_int ((w : ℚ) + 2 * r) : ℤ) : ℚ) <
          ((x - e + (w + 2 * e) : ℤ) : ℚ) + 1 := by
        push_cast; linarith [hx.2]
      have : static_cast_int ((x : ℚ) - r) + static_cast_int ((w : ℚ) + 2 * r) <
          x - e + (w + 2 * e) + 1 := by exact_mod_cast this
      omega
    · have : ((static_cast_int ((y : ℚ) - r) + static_cast_int ((ht : ℚ) + 2 * r) : ℤ) : ℚ) <
          ((y - e + (ht + 2 * e) : ℤ) : ℚ) + 1 := by
        push_cast; linarith [hy.2]
      have : static_cast_int ((y : ℚ) - r) + static_cast_int ((ht : ℚ) + 2 * r) <
          y - e + (ht + 2 * e) + 1 := by exact_mod_cast this
      omega

/-! ### Rounding -/

/-- Rounding to the nearest integer moves a number by at most one half. -/
theorem round_half_even_sub_le (y : ℚ) : |(round_half_even y : ℚ) - y| ≤ 1 / 2 := by
  have h1 := Int.floor_le y
  have h2 := Int.lt_floor_add_one y
  unfold round_half_even
  rw [abs_le]
  split_ifs with a b c
  · constructor <;> linarith
  · push_cast; constructor <;> linarith
  · push_cast at a b ⊢; constructor <;> linarith
  · push_cast at a b ⊢; constructor <;> linarith

/-- Rounding to the nearest integer leaves an integer unchanged. -/
theorem round_half_even_intCast (m : ℤ) : round_half_even (m : ℚ) = m := by
  unfold round_half_even
  simp

/-- The power of two below a non-zero number. -/
theorem zpow_log_le_abs (x : ℚ) (hx : x ≠ 0) : (2 : ℚ) ^ Int.log 2 |x| ≤ |x| := by
  have := Int.zpow_log_le_self (b := 2) (r := |x|) (by norm_num) (abs_pos.mpr hx)
  simpa using this

/-- Rounding to binary32 has relative error at most 2^-24. -/
theorem round_binary32_rel (x : ℚ) : |round_binary32 x - x| ≤ 1 / 2 ^ 24 * |x| := by
  unfold round_binary32
  split_ifs with hx
  · simp [hx]
  · set e := Int.log 2 |x| with he
    have hpos : (0 : ℚ) < 2 ^ (e - 23) := zpow_pos (by norm_num) _
    have hr := round_half_even_sub_le (x / 2 ^ (e - 23))
    have hsplit : (round_half_even (x / 2 ^ (e - 23)) : ℚ) * 2 ^ (e - 23) - x =
        ((round_half_even (x / 2 ^ (e - 23)) : ℚ) - x / 2 ^ (e - 23)) * 2 ^ (e - 23) := by
      field_simp
    rw [hsplit, abs_mul, abs_of_pos hpos]
    have hle := zpow_log_le_abs x hx
    have hulp : (2 : ℚ) ^ (e - 23) = 2 ^ e / 2 ^ 23 := by
      rw [zpow_sub₀ (by norm_num)]
      norm_num
    calc |(round_half_even (x / 2 ^ (e - 23)) : ℚ) - x / 2 ^ (e - 23)| * 2 ^ (e - 23)
        ≤ 1 / 2 * 2 ^ (e - 23) := by
          exact mul_le_mul_of_nonneg_right hr hpos.le
      _ = 1 / 2 ^ 24 * 2 ^ e := by rw [hulp]; norm_num; ring
      _ ≤ 1 / 2 ^ 24 * |x| := by
          apply mul_le_mul_of_nonneg_left hle (by norm_num)

/-- Rounding to binary32 leaves integers below 2^24 in magnitude unchanged. -/
theorem round_binary32_intCast (k : ℤ) (hk : |k| < 2 ^ 24) : round_binary32 (k : ℚ) = k := by
  unfold round_binary32
  split_ifs with hx
  · exact hx.symm
  · set e := Int.log 2 |(k : ℚ)| with he
    have hkq : |(k : ℚ)| < 2 ^ (24 : ℤ) := by
      have : ((|k| : ℤ) : ℚ) < ((2 ^ 24 : ℤ) : ℚ) := by exact_mod_cast hk
      rw [Int.cast_abs] at this
      norm_num at this ⊢
      exact this
    have hapos : 0 < |(k : ℚ)| := abs_pos.mpr hx
    have he23 : e < 24 := by
      have := (Int.lt_zpow_iff_log_lt (b := 2) (r := |(k : ℚ)|) (by norm_num) hapos).mp
        (by simpa using hkq)
      simpa [he] using this
    obtain ⟨n, hn⟩ : ∃ n : ℕ, (n : ℤ) = 23 - e := ⟨(23 - e).toNat, Int.toNat_of_nonneg (by omega)⟩
    have hpow : (2 : ℚ) ^ (e - 23) = ((2 : ℚ) ^ n)⁻¹ := by
      have : e - 23 = -(n : ℤ) := by omega
      rw [this, zpow_neg, zpow_natCast]
    have hy : (k : ℚ) / 2 ^ (e - 23) = ((k * 2 ^ n : ℤ) : ℚ) := by
      rw [hpow]
      push_cast
      field_simp
    rw [hy, round_half_even_intCast, hpow]
    push_cast
    field_simp

/-- Rounding to binary32 is a rounding with unit roundoff 2^-24. -/
theorem round_binary32_is_rounding : is_rounding round_binary32 (1 / 2 ^ 24) :=
  ⟨by norm_num, by norm_num, round_binary32_rel, round_binary32_intCast⟩

/-- Three roundings of a quotient in [0, 1]: the error of the normalized
coordinate is at most 6 u. -/
theorem ndc_value_error (fl : ℚ → ℚ) (u : ℚ) (hfl : is_rounding fl u) (ρ : ℚ)
    (h0 : 0 ≤ ρ) (h1 : ρ ≤ 1) : |fl (fl (fl ρ * 2) - 1) - (ρ * 2 - 1)| ≤ 6 * u := by
  obtain ⟨hu0, hu1, hrel, -⟩ := hfl
  have e1 := hrel ρ
  have e2 := hrel (fl ρ * 2)
  have e3 := hrel (fl (fl ρ * 2) - 1)
  rw [abs_of_nonneg h0] at e1
  have hE1 : |fl ρ - ρ| ≤ u := e1.trans (by nlinarith)
  have a1 := abs_le.mp hE1
  have hq1 : |fl ρ * 2| ≤ 2 + 2 * u := by
    rw [abs_le]; constructor <;> linarith [a1.1, a1.2]
  have hE2 : |fl (fl ρ * 2) - fl ρ * 2| ≤ u * (2 + 2 * u) :=
    e2.trans (mul_le_mul_of_nonneg_left hq1 hu0)
  have a2 := abs_le.mp hE2
  have hq2 : |fl (fl ρ * 2) - 1| ≤ 1 + 2 * u + u * (2 + 2 * u) := by
    rw [abs_le]; constructor <;> linarith [a1.1, a1.2, a2.1, a2.2]
  have hE3 : |fl (fl (fl ρ * 2) - 1) - (fl (fl ρ * 2) - 1)| ≤
      u * (1 + 2 * u + u * (2 + 2 * u)) :=
    e3.trans (mul_le_mul_of_nonneg_left hq2 hu0)
  have a3 := abs_le.mp hE3
  have huu : u * u ≤ u / 16 := by nlinarith
  have huuu : u * u * u ≤ u / 256 := by nlinarith [mul_nonneg hu0 hu0]
  rw [abs_le]
  constructor <;> nlinarith [a1.1, a1.2, a2.1, a2.2, a3.1, a3.2]

/-- One axis of the round trip: a relative coordinate in [0, size] comes back
within 3 u size. -/
theorem ndc_axis_round_trip (fl : ℚ → ℚ) (u : ℚ) (hfl : is_rounding fl u)
    (origin size rel : ℤ) (hs : 0 < size) (hs2 : size < 2 ^ 24) (h0 : 0 ≤ rel)
    (h1 : rel ≤ size) :
    ∃ c, (float_div (fl (rel : ℚ)) (fl (size : ℚ))).map (fun q => fl (fl (fl q * 2) - 1)) =
        some c ∧
      |ndc_inverse origin size c - ((rel : ℚ) + origin)| ≤ 3 * u * size := by
  have hexact := hfl.2.2.2
  have hsz : fl (size : ℚ) = size := hexact size (by rw [abs_of_pos hs]; exact hs2)
  have hrl : fl (rel : ℚ) = rel := hexact rel (by rw [abs_of_nonneg h0]; omega)
  have hsq : (0 : ℚ) < (size : ℚ) := by exact_mod_cast hs
  have hρ0 : (0 : ℚ) ≤ (rel : ℚ) / size := div_nonneg (by exact_mod_cast h0) hsq.le
  have hρ1 : (rel : ℚ) / size ≤ 1 := by
    rw [div_le_one hsq]; exact_mod_cast h1
  refine ⟨fl (fl (fl ((rel : ℚ) / size) * 2) - 1), ?_, ?_⟩
  · simp [float_div, hsz, hrl, hsq.ne']
  · have herr := ndc_value_error fl u hfl _ hρ0 hρ1
    have heq : ndc_inverse origin size (fl (fl (fl ((rel : ℚ) / size) * 2) - 1)) -
        ((rel : ℚ) + origin) =
        (fl (fl (fl ((rel : ℚ) / size) * 2) - 1) - ((rel : ℚ) / size * 2 - 1)) * (size / 2) := by
      unfold ndc_inverse
      field_simp
      ring
    rw [heq, abs_mul, abs_of_pos (by positivity : (0 : ℚ) < (size : ℚ) / 2)]
    calc |fl (fl (fl ((rel : ℚ) / size) * 2) - 1) - ((rel : ℚ) / size * 2 - 1)| * ((size : ℚ) / 2)
        ≤ 6 * u * ((size : ℚ) / 2) := mul_le_mul_of_nonneg_right herr (by positivity)
      _ = 3 * u * size := by ring

/-! ### The round trip of the quad -/

/-- With exact arithmetic for `fl`, `render_rounded` is `render`. -/
theorem render_rounded_exact (h : host_t) (cfg : glow_config_t) (driver : Nat → gl_driver_t)
    (node : glow_decoration_node_t) (instr : render_instruction_t) (g : gpu_t) :
    render_rounded (fun x => x) h cfg driver node instr g = render h cfg driver node instr g :=
  rfl

/-- For an integer glow radius and coordinates below 2^24 the rounded quad
rectangle is the expanded box, without any error. -/
theorem render_geom_rounded_int (fl : ℚ → ℚ) (u : ℚ) (hfl : is_rounding fl u)
    (B : geometry_t) (k : ℤ)
    (hx : |B.x| < 2 ^ 24) (hxk : |B.x - k| < 2 ^ 24)
    (hy : |B.y| < 2 ^ 24) (hyk : |B.y - k| < 2 ^ 24)
    (hk : |2 * k| < 2 ^ 24)
    (hw : |B.width| < 2 ^ 24) (hwk : |B.width + 2 * k| < 2 ^ 24)
    (hh : |B.height| < 2 ^ 24) (hhk : |B.height + 2 * k| < 2 ^ 24) :
    render_geom_rounded fl B (k : ℚ) =
      ⟨B.x - k, B.y - k, B.width + 2 * k, B.height + 2 * k⟩ := by
  have hexact := hfl.2.2.2
  have e2 : fl (2 * (k : ℚ)) = ((2 * k : ℤ) : ℚ) := by
    have := hexact (2 * k) hk
    push_cast at this ⊢
    exact this
  have ex : fl (fl (B.x : ℚ) - (k : ℚ)) = ((B.x - k : ℤ) : ℚ) := by
    rw [hexact B.x hx]
    have := hexact (B.x - k) hxk
    push_cast at this ⊢
    exact this
  have ey : fl (fl (B.y : ℚ) - (k : ℚ)) = ((B.y - k : ℤ) : ℚ) := by
    rw [hexact B.y hy]
    have := hexact (B.y - k) hyk
    push_cast at this ⊢
    exact this
  have ew : fl (fl (B.width : ℚ) + fl (2 * (k : ℚ))) = ((B.width + 2 * k : ℤ) : ℚ) := by
    rw [hexact B.width hw, e2]
    have := hexact (B.width + 2 * k) hwk
    push_cast at this ⊢
    exact this
  have eh : fl (fl (B.height : ℚ) + fl (2 * (k : ℚ))) = ((B.height + 2 * k : ℤ) : ℚ) := by
    rw [hexact B.height hh, e2]
    have := hexact (B.height + 2 * k) hhk
    push_cast at this ⊢
    exact this
  simp only [render_geom_rounded, ex, ey, ew, eh, static_cast_int_intCast]

/-- The round trip of a quad rectangle that lies inside a target with
coordinates below 2^24: every edge comes back within 3 u times the size of the
target, so positions are off by at most 3 u size and extents by at most
6 u size. -/
theorem round_trip_rounded_geom (fl : ℚ → ℚ) (u : ℚ) (hfl : is_rounding fl u)
    (geom fb_geom : geometry_t) (glow_r : ℚ)
    (hw : 0 < fb_geom.width) (hw2 : fb_geom.width < 2 ^ 24)
    (hh : 0 < fb_geom.height) (hh2 : fb_geom.height < 2 ^ 24)
    (hx0 : 0 ≤ geom.x - fb_geom.x) (hgw : 0 ≤ geom.width)
    (hx1 : geom.x - fb_geom.x + geom.width ≤ fb_geom.width)
    (hy0 : 0 ≤ geom.y - fb_geom.y) (hgh : 0 ≤ geom.height)
    (hy1 : geom.y - fb_geom.y + geom.height ≤ fb_geom.height) :
    ∃ R : rect_t,
      round_trip (render_ndc_rounded fl geom fb_geom) fb_geom glow_r = some R ∧
      |R.x - ((geom.x : ℚ) + glow_r)| ≤ 3 * u * fb_geom.width ∧
      |R.y - ((geom.y : ℚ) + glow_r)| ≤ 3 * u * fb_geom.height ∧
      |R.width - ((geom.width : ℚ) - 2 * glow_r)| ≤ 6 * u * fb_geom.width ∧
      |R.height - ((geom.height : ℚ) - 2 * glow_r)| ≤ 6 * u * fb_geom.height := by
  have hexact := hfl.2.2.2
  obtain ⟨l, hl, el⟩ := ndc_axis_round_trip fl u hfl fb_geom.x fb_geom.width
    (geom.x - fb_geom.x) hw hw2 hx0 (by omega)
  obtain ⟨r, hr, er⟩ := ndc_axis_round_trip fl u hfl fb_geom.x fb_geom.width
    (geom.x - fb_geom.x + geom.width) hw hw2 (by omega) hx1
  obtain ⟨t, ht, et⟩ := ndc_axis_round_trip fl u hfl fb_geom.y fb_geom.height
    (geom.y - fb_geom.y) hh hh2 hy0 (by omega)
  obtain ⟨b, hb, eb⟩ := ndc_axis_round_trip fl u hfl fb_geom.y fb_geom.height
    (geom.y - fb_geom.y + geom.height) hh hh2 (by omega) hy1
  have sx : fl (fl ((geom.x - fb_geom.x : ℤ) : ℚ) + fl (geom.width : ℚ)) =
      fl ((geom.x - fb_geom.x + geom.width : ℤ) : ℚ) := by
    rw [hexact (geom.x - fb_geom.x) (by rw [abs_of_nonneg hx0]; omega),
      hexact geom.width (by rw [abs_of_nonneg hgw]; omega)]
    push_cast
    rfl
  have sy : fl (fl ((geom.y - fb_geom.y : ℤ) : ℚ) + fl (geom.height : ℚ)) =
      fl ((geom.y - fb_geom.y + geom.height : ℤ) : ℚ) := by
    rw [hexact (geom.y - fb_geom.y) (by rw [abs_of_nonneg hy0]; omega),
      hexact geom.height (by rw [abs_of_nonneg hgh]; omega)]
    push_cast
    rfl
  have hrt : round_trip (render_ndc_rounded fl geom fb_geom) fb_geom glow_r =
      some { x := ndc_inverse fb_geom.x fb_geom.width l + glow_r
             y := ndc_inverse fb_geom.y fb_geom.height t + glow_r
             width := (ndc_inverse fb_geom.x fb_geom.width r -
               ndc_inverse fb_geom.x fb_geom.width l) - 2 * glow_r
             height := (ndc_inverse fb_geom.y fb_geom.height b -
               ndc_inverse fb_geom.y fb_geom.height t) - 2 * glow_r } := by
    simp only [round_trip, render_ndc_rounded, sx, sy, hl, hr, ht, hb]
  refine ⟨_, hrt, ?_, ?_, ?_, ?_⟩
  · have a := abs_le.mp el
    push_cast at a
    simp only
    rw [abs_le]; constructor <;> linarith [a.1, a.2]
  · have a := abs_le.mp et
    push_cast at a
    simp only
    rw [abs_le]; constructor <;> linarith [a.1, a.2]
  · have a := abs_le.mp el
    have c := abs_le.mp er
    push_cast at a c
    simp only
    rw [abs_le]; constructor <;> linarith [a.1, a.2, c.1, c.2]
  · have a := abs_le.mp et
    have c := abs_le.mp eb
    push_cast at a c
    simp only
    rw [abs_le]; constructor <;> linarith [a.1, a.2, c.1, c.2]

/-- The draw that `render_rounded` logs for a mapped view, a compiled program
and a positive opacity, and the round trip of its vertices. -/
theorem render_rounded_log (fl : ℚ → ℚ) (h : host_t) (cfg : glow_config_t)
    (driver : Nat → gl_driver_t) (node : glow_decoration_node_t) (instr : render_instruction_t)
    (g : gpu_t) (v : Nat) (hv : node.view = some v) (hm : h.is_mapped v = true)
    (hc : g.g_glow_program.compiled = true) (ho : 0 < node.opacity) :
    (render_rounded fl h cfg driver node instr g).gl.log =
      g.gl.log ++ [.draw_arrays
        (render_draw_rounded fl cfg node (h.get_bounding_box v) instr.target)] ∧
    round_trip_vertices
        (render_draw_rounded fl cfg node (h.get_bounding_box v) instr.target).vertices
        instr.target.geometry cfg.glow_radius =
      round_trip (render_ndc_rounded fl
        (render_geom_rounded fl (h.get_bounding_box v) cfg.glow_radius) instr.target.geometry)
        instr.target.geometry cfg.glow_radius := by
  constructor
  · simp [render_rounded, hv, hm, hc, not_le.mpr ho]
  · rfl

/-- C3 fails as stated, also with binary32 rounding: for view 1 of the example
compositor, box (100, 100, 200, 150), with glow radius 2.5 and the target
(0, 0, 1920, 1080), which contains the expanded box, `render` draws a quad
whose round trip has x within 0.001 of 99.5; it is not the box. -/
theorem render_round_trip_counterexample :
    target_contains ⟨0, 0, 1920, 1080⟩ (host_example.get_bounding_box 1) (5 / 2) ∧
    ∃ d R,
      (render_rounded round_binary32 host_example { glow_radius := 5 / 2 }
          (fun _ => ⟨true, true, true⟩) { addr := 0, view := some 1, opacity := 1 }
          { inst := 0, target := ⟨⟨0, 0, 1920, 1080⟩⟩, damage := [] }
          { g_glow_program := { compiled := true } }).gl.log = [.draw_arrays d] ∧
      round_trip_vertices d.vertices ⟨0, 0, 1920, 1080⟩ (5 / 2) = some R ∧
      |R.x - 199 / 2| ≤ 1 / 1000 ∧
      round_trip_vertices d.vertices ⟨0, 0, 1920, 1080⟩ (5 / 2) ≠
        some (host_example.get_bounding_box 1).to_rect := by
  have hfl := round_binary32_is_rounding
  have hexact := hfl.2.2.2
  have hB : host_example.get_bounding_box 1 = ⟨100, 100, 200, 150⟩ := by
    simp [host_example]
  -- the rounded quad rectangle
  have h100 : round_binary32 (100 : ℚ) = 100 := by
    have := hexact 100 (by norm_num)
    simpa using this
  have h200 : round_binary32 (200 : ℚ) = 200 := by
    have := hexact 200 (by norm_num)
    simpa using this
  have h150 : round_binary32 (150 : ℚ) = 150 := by
    have := hexact 150 (by norm_num)
    simpa using this
  have h5 : round_binary32 (2 * (5 / 2) : ℚ) = 5 := by
    have := hexact 5 (by norm_num)
    rw [show (2 * (5 / 2) : ℚ) = ((5 : ℤ) : ℚ) by norm_num]
    simpa using this
  have h205 : round_binary32 ((200 : ℚ) + 5) = 205 := by
    have := hexact 205 (by norm_num)
    rw [show ((200 : ℚ) + 5) = ((205 : ℤ) : ℚ) by norm_num]
    simpa using this
  have h155 : round_binary32 ((150 : ℚ) + 5) = 155 := by
    have := hexact 155 (by norm_num)
    rw [show ((150 : ℚ) + 5) = ((155 : ℤ) : ℚ) by norm_num]
    simpa using this
  have h97 : static_cast_int (round_binary32 ((100 : ℚ) - 5 / 2)) = 97 := by
    have hr := abs_le.mp (round_binary32_rel ((100 : ℚ) - 5 / 2))
    have habs : |(100 : ℚ) - 5 / 2| = 195 / 2 := by norm_num [abs_of_pos]
    rw [habs] at hr
    apply static_cast_int_of_nonneg
    · linarith [hr.1]
    · push_cast; linarith [hr.1]
    · push_cast; linarith [hr.2]
  have hgeom : render_geom_rounded round_binary32 ⟨100, 100, 200, 150⟩ (5 / 2) =
      ⟨97, 97, 205, 155⟩ := by
    have c205 : static_cast_int (205 : ℚ) = 205 := by
      have := static_cast_int_intCast 205
      simpa using this
    have c155 : static_cast_int (155 : ℚ) = 155 := by
      have := static_cast_int_intCast 155
      simpa using this
    simp only [render_geom_rounded, Int.cast_ofNat, h100, h200, h150, h5, h205, h155, h97,
      c205, c155]
  obtain ⟨hlog, hrt⟩ := render_rounded_log round_binary32 host_example { glow_radius := 5 / 2 }
    (fun _ => ⟨true, true, true⟩) { addr := 0, view := some 1, opacity := 1 }
    { inst := 0, target := ⟨⟨0, 0, 1920, 1080⟩⟩, damage := [] }
    { g_glow_program := { compiled := true } } 1 rfl rfl rfl (by norm_num)
  obtain ⟨R, hR, ex, -, -, -⟩ := round_trip_rounded_geom round_binary32 (1 / 2 ^ 24) hfl
    ⟨97, 97, 205, 155⟩ ⟨0, 0, 1920, 1080⟩ (5 / 2)
    (by norm_num) (by norm_num) (by norm_num) (by norm_num) (by norm_num) (by norm_num)
    (by norm_num) (by norm_num) (by norm_num) (by norm_num)
  rw [hB] at hrt ⊢
  simp only at hrt
  rw [hgeom, hR] at hrt
  have hx : |R.x - 199 / 2| ≤ 1 / 1000 := by
    have a := abs_le.mp ex
    push_cast at a
    rw [abs_le]
    constructor <;> linarith [a.1, a.2]
  refine ⟨by norm_num [target_contains], _, R, hlog, hrt, hx, ?_⟩
  intro heq
  have hRB := hrt.symm.trans heq
  have := congrArg rect_t.x (Option.some.inj hRB)
  simp only [geometry_t.to_rect] at this
  rw [this] at hx
  norm_num [abs_of_pos] at hx

/-- C3 as amended: for a mapped view with box B of non-negative size, an
integer glow radius ≥ 0 and a target T of non-zero size that contains the
expanded box and has coordinates below 2^24, `render` in rounded arithmetic
(relative error at most u per operation, integers below 2^24 exact) draws a
quad whose vertices, mapped back through the inverse transform of T and shrunk
by the glow radius, reproduce B within floating-point tolerance: x within
3 u T.width, y within 3 u T.height, width within 6 u T.width and height
within 6 u T.height. -/
theorem render_round_trip (fl : ℚ → ℚ) (u : ℚ) (hfl : is_rounding fl u)
    (h : host_t) (cfg : glow_config_t) (driver : Nat → gl_driver_t)
    (node : glow_decoration_node_t) (instr : render_instruction_t) (g : gpu_t) (v : Nat)
    (hv : node.view = some v) (hm : h.is_mapped v = true)
    (hc : g.g_glow_program.compiled = true) (ho : 0 < node.opacity)
    (k : ℤ) (hk : cfg.glow_radius = k) (hk0 : 0 ≤ k)
    (hBw : 0 ≤ (h.get_bounding_box v).width) (hBh : 0 ≤ (h.get_bounding_box v).height)
    (hTw : instr.target.geometry.width ≠ 0) (hTh : instr.target.geometry.height ≠ 0)
    (hcont : target_contains instr.target.geometry (h.get_bounding_box v) cfg.glow_radius)
    (hsmall : target_small instr.target.geometry) :
    ∃ d R,
      (render_rounded fl h cfg driver node instr g).gl.log = g.gl.log ++ [.draw_arrays d] ∧
      round_trip_vertices d.vertices instr.target.geometry cfg.glow_radius = some R ∧
      |R.x - (h.get_bounding_box v).x| ≤ 3 * u * instr.target.geometry.width ∧
      |R.y - (h.get_bounding_box v).y| ≤ 3 * u * instr.target.geometry.height ∧
      |R.width - (h.get_bounding_box v).width| ≤ 6 * u * instr.target.geometry.width ∧
      |R.height - (h.get_bounding_box v).height| ≤ 6 * u * instr.target.geometry.height := by
  obtain ⟨hlog, hrt⟩ := render_rounded_log fl h cfg driver node instr g v hv hm hc ho
  generalize h.get_bounding_box v = B at *
  generalize instr.target.geometry = T at *
  obtain ⟨Bx, By, Bw, Bh⟩ := B
  obtain ⟨Tx, Ty, Tw, Th⟩ := T
  simp only at hBw hBh hTw hTh
  rw [hk] at hcont hrt ⊢
  simp only [target_contains] at hcont
  obtain ⟨c1, c2, c3, c4⟩ := hcont
  have c1' : Tx ≤ Bx - k := by exact_mod_cast c1
  have c2' : Ty ≤ By - k := by exact_mod_cast c2
  have c3' : Bx + Bw + k ≤ Tx + Tw := by exact_mod_cast c3
  have c4' : By + Bh + k ≤ Ty + Th := by exact_mod_cast c4
  simp only [target_small] at hsmall
  obtain ⟨s1, s2⟩ := hsmall
  have ax1 := neg_abs_le Tx
  have ax2 := le_abs_self Tx
  have ay1 := neg_abs_le Ty
  have ay2 := le_abs_self Ty
  have hb : ∀ z : ℤ, -(2 ^ 24) < z → z < 2 ^ 24 → |z| < 2 ^ 24 :=
    fun z a b => abs_lt.mpr ⟨a, b⟩
  have hgeom := render_geom_rounded_int fl u hfl ⟨Bx, By, Bw, Bh⟩ k
    (hb Bx (by omega) (by omega)) (hb (Bx - k) (by omega) (by omega))
    (hb By (by omega) (by omega)) (hb (By - k) (by omega) (by omega))
    (hb (2 * k) (by omega) (by omega))
    (hb Bw (by omega) (by omega)) (hb (Bw + 2 * k) (by omega) (by omega))
    (hb Bh (by omega) (by omega)) (hb (Bh + 2 * k) (by omega) (by omega))
  simp only at hgeom
  rw [hgeom] at hrt
  obtain ⟨R, hR, ex, ey, ew, eh⟩ := round_trip_rounded_geom fl u hfl
    ⟨Bx - k, By - k, Bw + 2 * k, Bh + 2 * k⟩ ⟨Tx, Ty, Tw, Th⟩ (k : ℚ)
    (by simp only; omega) (by simp only; omega) (by simp only; omega) (by simp only; omega)
    (by simp only; omega) (by simp only; omega) (by simp only; omega) (by simp only; omega)
    (by simp only; omega) (by simp only; omega)
  rw [hR] at hrt
  refine ⟨_, R, hlog, hrt, ?_, ?_, ?_, ?_⟩
  · have a := abs_le.mp ex
    push_cast at a
    simp only
    rw [abs_le]; constructor <;> linarith [a.1, a.2]
  · have a := abs_le.mp ey
    push_cast at a
    simp only
    rw [abs_le]; constructor <;> linarith [a.1, a.2]
  · have a := abs_le.mp ew
    push_cast at a
    simp only
    rw [abs_le]; constructor <;> linarith [a.1, a.2]
  · have a := abs_le.mp eh
    push_cast at a
    simp only
    rw [abs_le]; constructor <;> linarith [a.1, a.2]

/-- C3 as amended, at a concrete input with binary32 rounding: view 1 of the
example compositor, box (100, 100, 200, 150), the default glow radius 20 and
the target (0, 0, 1920, 1080): the round trip of the drawn quad is within
3 · 2^-24 · 1920 of the box horizontally. -/
theorem render_round_trip_witness :
    ∃ d R,
      (render_rounded round_binary32 host_example {} (fun _ => ⟨true, true, true⟩)
          { addr := 0, view := some 1, opacity := 1 }
          { inst := 0, target := ⟨⟨0, 0, 1920, 1080⟩⟩, damage := [] }
          { g_glow_program := { compiled := true } }).gl.log = [.draw_arrays d] ∧
      round_trip_vertices d.vertices ⟨0, 0, 1920, 1080⟩ 20 = some R ∧
      |R.x - 100| ≤ 3 * (1 / 2 ^ 24) * 1920 ∧ |R.y - 100| ≤ 3 * (1 / 2 ^ 24) * 1080 ∧
      |R.width - 200| ≤ 6 * (1 / 2 ^ 24) * 1920 ∧
      |R.height - 150| ≤ 6 * (1 / 2 ^ 24) * 1080 := by
  obtain ⟨d, R, w1, w2, w3, w4, w5, w6⟩ :=
    render_round_trip round_binary32 (1 / 2 ^ 24) round_binary32_is_rounding
      host_example {} (fun _ => ⟨true, true, true⟩)
      { addr := 0, view := some 1, opacity := 1 }
      { inst := 0, target := ⟨⟨0, 0, 1920, 1080⟩⟩, damage := [] }
      { g_glow_program := { compiled := true } } 1 rfl rfl rfl (by norm_num)
      20 (by norm_num) (by norm_num)
      (by simp [host_example]) (by simp [host_example])
      (by norm_num) (by norm_num)
      (by norm_num [target_contains, host_example])
      (by norm_num [target_small])
  refine ⟨d, R, w1, w2, ?_, ?_, ?_, ?_⟩
  · simpa [host_example] using w3
  · simpa [host_example] using w4
  · simpa [host_example] using w5
  · simpa [host_example] using w6

end wf.glow_decoration
